import Mathlib

/-!
Verification development for the cronx scheduler core.

The TypeScript sources are shallowly embedded: JavaScript `Map`s become
association lists that preserve insertion order (`Map.set` updates an
existing key in place, otherwise appends), `Date` values become
millisecond epochs (`Nat`), optional fields become `Option`, and
fallible operations return `Except`.  Each adapter's methods are
translated one-to-one from `packages/core/src/storage/{memory,redis,sqlite}.ts`,
the executor from `executor.ts`, and the coordinator facade from the
`Cronx` class together with `scheduler.ts`.
-/

namespace Cronx

/-- Insertion-ordered map model of a JavaScript `Map` as used by the
adapters: `set` overwrites in place when the key is present, otherwise
appends at the end (JS `Map` iteration order). -/
def mapSet {α : Type} (m : List (String × α)) (k : String) (v : α) : List (String × α) :=
  if m.any (fun p => p.1 = k) then
    m.map (fun p => if p.1 = k then (k, v) else p)
  else
    m ++ [(k, v)]

/-- `Map.get`. -/
def mapGet {α : Type} (m : List (String × α)) (k : String) : Option α :=
  (m.find? (fun p => p.1 = k)).map (fun p => p.2)

/-- `Map.delete`, returning whether the key was present together with the
new map (JS returns the boolean). -/
def mapDelete {α : Type} (m : List (String × α)) (k : String) : Bool × List (String × α) :=
  (m.any (fun p => p.1 = k), m.filter (fun p => ¬ p.1 = k))

/-- Keys of the map, in order. -/
def mapKeys {α : Type} (m : List (String × α)) : List String :=
  m.map (fun p => p.1)

/-- `Map.values()` iteration, in insertion order. -/
def mapValues {α : Type} (m : List (String × α)) : List α :=
  m.map (fun p => p.2)

/-- `status` field of a `JobRun` (`types.ts`). -/
inductive RunStatus
  | pending
  | running
  | completed
  | failed
deriving DecidableEq, Repr

/-- Model of the JavaScript values stored in a run's `result` field:
either the literal skip object `\x7b skipped: true, reason \x7d`
produced by the executor, or an opaque handler result. -/
inductive ResultVal
  | skipped (reason : String)
  | value (v : Nat)
deriving DecidableEq, Repr

/-- Backoff option (`'fixed' | 'exponential'` in `JobOptions`). -/
inductive BackoffKind
  | fixed
  | exponential
deriving DecidableEq, Repr

/-- `JobOptions` (`types.ts`).  The `name` field is kept as an `Option`
so that a missing (`undefined`) name and an empty name can both be
modelled; JS truthiness of `options.name` is false exactly for these
two. -/
structure JobOptions where
  name : Option String
  retries : Option Nat := none
  backoff : Option BackoffKind := none
  timeout : Option Nat := none
deriving DecidableEq, Repr

/-- `JobRun` record (`types.ts`); `Date`s are millisecond epochs. -/
structure JobRun where
  id : String
  jobName : String
  status : RunStatus
  startTime : Option Nat := none
  endTime : Option Nat := none
  error : Option String := none
  result : Option ResultVal := none
  attempt : Nat
deriving DecidableEq, Repr

/-- `Job` record (`types.ts`); the in-process `handler` callable is not
part of the persisted record and is modelled separately by the
executor's outcome environment. -/
structure Job where
  name : String
  schedule : String
  options : JobOptions
  isActive : Bool
  isPaused : Bool
  createdAt : Nat
  updatedAt : Nat
  lastRun : Option Nat := none
  nextRun : Option Nat := none
deriving DecidableEq, Repr

/-- `JobStats` aggregate; `averageDuration` is a rational mean of
millisecond durations. -/
structure JobStats where
  totalRuns : Nat
  successfulRuns : Nat
  failedRuns : Nat
  averageDuration : Rat
  lastRun : Option Nat := none
  nextRun : Option Nat := none
deriving DecidableEq, Repr

/-- Lock record kept by the memory adapter (`memory.ts`, `LockInfo`). -/
structure LockInfo where
  workerId : String
  expiresAt : Nat
deriving DecidableEq, Repr

/-! ## Memory storage adapter (`packages/core/src/storage/memory.ts`) -/

/-- In-memory state: the three `Map`s of `MemoryStorageAdapter`. -/
structure MemoryState where
  jobs : List (String × Job) := []
  jobRuns : List (String × JobRun) := []
  locks : List (String × LockInfo) := []
deriving DecidableEq, Repr

namespace MemoryStorageAdapter

/-- `saveJob`: `this.jobs.set(job.name, \x7b ...job \x7d)`. -/
def saveJob (s : MemoryState) (job : Job) : MemoryState :=
  { s with jobs := mapSet s.jobs job.name job }

/-- `deleteJob`: `this.jobs.delete(name)` (the run map is untouched). -/
def deleteJob (s : MemoryState) (name : String) : Bool × MemoryState :=
  let d := mapDelete s.jobs name
  (d.1, { s with jobs := d.2 })

/-- `saveJobRun`: upsert by `run.id`. -/
def saveJobRun (s : MemoryState) (run : JobRun) : MemoryState :=
  { s with jobRuns := mapSet s.jobRuns run.id run }

/-- `getJobRun`. -/
def getJobRun (s : MemoryState) (id : String) : Option JobRun :=
  mapGet s.jobRuns id

/-- Sort key of `getJobRuns`: `run.startTime?.getTime() || 0` maps a
missing `startTime` (and the epoch itself) to `0`. -/
def jsSortKey (r : JobRun) : Nat :=
  r.startTime.getD 0

/-- The comparator `(a, b) => key b - key a` of `getJobRuns`: descending
by `jsSortKey`; JS `Array.prototype.sort` is stable. -/
def memRunDesc (a b : JobRun) : Prop :=
  jsSortKey b ≤ jsSortKey a

instance : DecidableRel memRunDesc := fun _ _ => Nat.decLe _ _

instance : IsTotal JobRun memRunDesc :=
  ⟨fun a b => Nat.le_total (jsSortKey b) (jsSortKey a)⟩

instance : IsTrans JobRun memRunDesc :=
  ⟨fun _ _ _ h h2 => Nat.le_trans h2 h⟩

/-- `getJobRuns(jobName, limit?)`: filter, stable sort by the JS
comparator, then `limit ? runs.slice(0, limit) : runs` (a `limit` of `0`
is falsy and is ignored). -/
def getJobRuns (s : MemoryState) (jobName : String) (limit : Option Nat) : List JobRun :=
  let runs := ((mapValues s.jobRuns).filter (fun r => r.jobName = jobName)).insertionSort memRunDesc
  match limit with
  | some l => if l ≠ 0 then runs.take l else runs
  | none => runs

/-- `getJobStats(jobName?)` for the memory adapter. -/
def getJobStats (s : MemoryState) (jobName : Option String) : JobStats :=
  match jobName with
  | some n =>
    let runs := getJobRuns s n none
    let successful := (runs.filter (fun r => r.status = RunStatus.completed)).length
    let failed := (runs.filter (fun r => r.status = RunStatus.failed)).length
    let durations := (runs.filter (fun r => r.startTime.isSome ∧ r.endTime.isSome)).map
      (fun r => ((r.endTime.getD 0 : Int) - (r.startTime.getD 0 : Int) : Rat))
    let job := mapGet s.jobs n
    { totalRuns := runs.length
      successfulRuns := successful
      failedRuns := failed
      averageDuration := if durations.length > 0 then durations.sum / durations.length else 0
      lastRun := job.bind (fun j => j.lastRun)
      nextRun := job.bind (fun j => j.nextRun) }
  | none =>
    let allRuns := mapValues s.jobRuns
    let successful := (allRuns.filter (fun r => r.status = RunStatus.completed)).length
    let failed := (allRuns.filter (fun r => r.status = RunStatus.failed)).length
    let durations := (allRuns.filter (fun r => r.startTime.isSome ∧ r.endTime.isSome)).map
      (fun r => ((r.endTime.getD 0 : Int) - (r.startTime.getD 0 : Int) : Rat))
    { totalRuns := allRuns.length
      successfulRuns := successful
      failedRuns := failed
      averageDuration := if durations.length > 0 then durations.sum / durations.length else 0 }

/-- `acquireLock(jobName, workerId, ttl)` at instant `now`:
if an unexpired lock exists (`existing.expiresAt > now`) the call
returns whether the caller already owns it, leaving the record alone;
otherwise it stores `\x7b workerId, expiresAt: now + ttl \x7d` and
returns `true`. -/
def acquireLock (s : MemoryState) (jobName workerId : String) (ttl now : Nat) :
    Bool × MemoryState :=
  match mapGet s.locks jobName with
  | some existing =>
    if now < existing.expiresAt then
      (existing.workerId = workerId, s)
    else
      (true, { s with locks := mapSet s.locks jobName ⟨workerId, now + ttl⟩ })
  | none =>
    (true, { s with locks := mapSet s.locks jobName ⟨workerId, now + ttl⟩ })

/-- `releaseLock(jobName, workerId)`. -/
def releaseLock (s : MemoryState) (jobName workerId : String) : Bool × MemoryState :=
  match mapGet s.locks jobName with
  | some existing =>
    if existing.workerId = workerId then
      (true, { s with locks := (mapDelete s.locks jobName).2 })
    else
      (false, s)
  | none => (false, s)

end MemoryStorageAdapter

/-! ## Redis storage adapter (`packages/core/src/storage/redis.ts`)

Keys live under the `cronx:` prefix; the key strings themselves are
irrelevant to the semantics, so the state is modelled per key family.
A lock is a plain Redis string value with a PX expiry; an expired key
is observationally absent. -/

/-- A Redis lock key: value (the worker id) plus its PX expiry epoch. -/
structure RedisLock where
  value : String
  expiresAt : Nat
deriving DecidableEq, Repr

/-- State of the Redis keyspace touched by the adapter: job hashes
(`cronx:job:<name>`), the `cronx:jobs` set, run hashes
(`cronx:run:<id>`), per-job run-id lists (`cronx:runs:<jobName>`),
and lock keys (`cronx:lock:<jobName>`). -/
structure RedisState where
  jobs : List (String × Job) := []
  jobsSet : List String := []
  runs : List (String × JobRun) := []
  runLists : List (String × List String) := []
  locks : List (String × RedisLock) := []
deriving DecidableEq, Repr

namespace RedisStorageAdapter

/-- `GET` on a lock key at instant `now`: an expired key is absent. -/
def getLockValue (s : RedisState) (jobName : String) (now : Nat) : Option String :=
  match mapGet s.locks jobName with
  | some l => if now < l.expiresAt then some l.value else none
  | none => none

/-- `saveJob`: `HSET cronx:job:<name>` plus `SADD cronx:jobs`. -/
def saveJob (s : RedisState) (job : Job) : RedisState :=
  { s with
    jobs := mapSet s.jobs job.name job
    jobsSet := if job.name ∈ s.jobsSet then s.jobsSet else s.jobsSet ++ [job.name] }

/-- `saveJobRun`: `HSET cronx:run:<id>` (full overwrite of the hash
fields), `LPUSH cronx:runs:<jobName> id`, then `LTRIM 0 99` keeping the
100 most recent entries.  Note every save pushes the id again. -/
def saveJobRun (s : RedisState) (run : JobRun) : RedisState :=
  let oldList := (mapGet s.runLists run.jobName).getD []
  { s with
    runs := mapSet s.runs run.id run
    runLists := mapSet s.runLists run.jobName ((run.id :: oldList).take 100) }

/-- `getJobRun(id)`. -/
def getJobRun (s : RedisState) (id : String) : Option JobRun :=
  mapGet s.runs id

/-- `getJobRuns(jobName, limit?)`: `LRANGE cronx:runs:<jobName> 0
(limit ? limit - 1 : -1)` (so a falsy limit of `0` yields the whole
list), then each id is resolved through `getJobRun`, dropping misses. -/
def getJobRuns (s : RedisState) (jobName : String) (limit : Option Nat) : List JobRun :=
  let ids := (mapGet s.runLists jobName).getD []
  let ids := match limit with
    | some l => if l ≠ 0 then ids.take l else ids
    | none => ids
  ids.filterMap (fun id => getJobRun s id)

/-- `deleteJob(name)`: `DEL cronx:job:<name>`, `SREM cronx:jobs`, then
the run hashes listed under `cronx:runs:<name>` and the list itself are
deleted when the list is non-empty; returns whether the job key was
deleted. -/
def deleteJob (s : RedisState) (name : String) : Bool × RedisState :=
  let d := mapDelete s.jobs name
  let s1 := { s with jobs := d.2, jobsSet := s.jobsSet.filter (fun n => ¬ n = name) }
  let runIds := (mapGet s1.runLists name).getD []
  let s2 :=
    if runIds ≠ [] then
      { s1 with
        runs := s1.runs.filter (fun p => ¬ p.1 ∈ runIds)
        runLists := (mapDelete s1.runLists name).2 }
    else s1
  (d.1, s2)

/-- `getJobStats`: the adapter is a placeholder
(`// Simplified implementation for now`) returning constant zeros. -/
def getJobStats (_s : RedisState) (_jobName : Option String) : JobStats :=
  { totalRuns := 0, successfulRuns := 0, failedRuns := 0, averageDuration := 0 }

/-- `acquireLock`: `SET cronx:lock:<jobName> workerId PX ttl NX` —
succeeds exactly when no unexpired key exists, regardless of who holds
it. -/
def acquireLock (s : RedisState) (jobName workerId : String) (ttl now : Nat) :
    Bool × RedisState :=
  match getLockValue s jobName now with
  | some _ => (false, s)
  | none =>
    (true, { s with locks := mapSet s.locks jobName ⟨workerId, now + ttl⟩ })

/-- `releaseLock`: the compare-and-delete Lua script. -/
def releaseLock (s : RedisState) (jobName workerId : String) (now : Nat) :
    Bool × RedisState :=
  match getLockValue s jobName now with
  | some v =>
    if v = workerId then (true, { s with locks := (mapDelete s.locks jobName).2 })
    else (false, s)
  | none => (false, s)

end RedisStorageAdapter

/-! ## SQLite storage adapter (`packages/core/src/storage/sqlite.ts`)

Rows of the three tables; `DATETIME` columns are ISO-8601 strings whose
ordering coincides with the epoch ordering, so they are modelled as
millisecond epochs. -/

/-- A row of the `locks` table. -/
structure SqliteLock where
  job_name : String
  worker_id : String
  expires_at : Nat
deriving DecidableEq, Repr

/-- Logical database state: `jobs`, `job_runs` and `locks` tables. -/
structure SqliteState where
  jobs : List Job := []
  job_runs : List JobRun := []
  locks : List SqliteLock := []
deriving DecidableEq, Repr

namespace SQLiteStorageAdapter

/-- `INSERT OR REPLACE` upserts by primary key; SQLite deletes the
conflicting row and appends the replacement. -/
def saveJob (s : SqliteState) (job : Job) : SqliteState :=
  { s with jobs := (s.jobs.filter (fun j => ¬ j.name = job.name)) ++ [job] }

/-- `saveJobRun`: `INSERT OR REPLACE INTO job_runs` keyed by `id`. -/
def saveJobRun (s : SqliteState) (run : JobRun) : SqliteState :=
  { s with job_runs := (s.job_runs.filter (fun r => ¬ r.id = run.id)) ++ [run] }

/-- `deleteJob`: `DELETE FROM jobs WHERE name = ?`; the schema declares
`FOREIGN KEY (job_name) REFERENCES jobs (name) ON DELETE CASCADE` on
`job_runs`, so the job's runs are removed with it.  Returns
`changes > 0`. -/
def deleteJob (s : SqliteState) (name : String) : Bool × SqliteState :=
  let existed := s.jobs.any (fun j => j.name = name)
  (existed,
    { s with
      jobs := s.jobs.filter (fun j => ¬ j.name = name)
      job_runs := s.job_runs.filter (fun r => ¬ r.jobName = name) })

/-- `ORDER BY start_time DESC` comparison: SQLite sorts `NULL` below
every value, so `DESC` places `NULL` `start_time` rows last. -/
def sqlDescKeyLe (a b : Option Nat) : Prop :=
  match a, b with
  | none, _ => True
  | some _, none => False
  | some m, some n => m ≤ n

instance : DecidableRel sqlDescKeyLe := fun a b =>
  match a, b with
  | none, _ => isTrue trivial
  | some _, none => isFalse (fun h => h)
  | some m, some n => Nat.decLe m n

/-- Row order produced by `ORDER BY start_time DESC`. -/
def sqlRunDesc (a b : JobRun) : Prop :=
  sqlDescKeyLe b.startTime a.startTime

instance : DecidableRel sqlRunDesc := fun a b =>
  inferInstanceAs (Decidable (sqlDescKeyLe b.startTime a.startTime))

theorem sqlDescKeyLe_total (a b : Option Nat) : sqlDescKeyLe a b ∨ sqlDescKeyLe b a := by
  rcases a with _ | m <;> rcases b with _ | n <;> simp [sqlDescKeyLe]
  exact Nat.le_total m n

theorem sqlDescKeyLe_trans {a b c : Option Nat}
    (h1 : sqlDescKeyLe a b) (h2 : sqlDescKeyLe b c) : sqlDescKeyLe a c := by
  rcases a with _ | m <;> rcases b with _ | n <;> rcases c with _ | p <;>
    simp [sqlDescKeyLe] at *
  exact Nat.le_trans h1 h2

instance : IsTotal JobRun sqlRunDesc :=
  ⟨fun a b => (sqlDescKeyLe_total b.startTime a.startTime).elim Or.inl Or.inr⟩

instance : IsTrans JobRun sqlRunDesc :=
  ⟨fun _ _ _ hab hbc => sqlDescKeyLe_trans hbc hab⟩

/-- `getJobRuns(jobName, limit?)`: `SELECT ... WHERE job_name = ? ORDER
BY start_time DESC` with a `LIMIT` clause only when `limit` is truthy
(the SQL string interpolates `limit ? 'LIMIT ?' : ''`). -/
def getJobRuns (s : SqliteState) (jobName : String) (limit : Option Nat) : List JobRun :=
  let rows := (s.job_runs.filter (fun r => r.jobName = jobName)).insertionSort sqlRunDesc
  match limit with
  | some l => if l ≠ 0 then rows.take l else rows
  | none => rows

/-- The aggregate query of `getJobStats`: `COUNT`, conditional `SUM`s
and `AVG((julianday(end_time) - julianday(start_time)) * 86400000)`
over rows with both timestamps; `AVG` of no rows is `NULL`, coalesced
to `0` by `|| 0`. -/
def aggStats (rows : List JobRun) : Nat × Nat × Nat × Rat :=
  let successful := (rows.filter (fun r => r.status = RunStatus.completed)).length
  let failed := (rows.filter (fun r => r.status = RunStatus.failed)).length
  let durations := (rows.filter (fun r => r.startTime.isSome ∧ r.endTime.isSome)).map
    (fun r => ((r.endTime.getD 0 : Int) - (r.startTime.getD 0 : Int) : Rat))
  (rows.length, successful, failed,
    if durations.length > 0 then durations.sum / durations.length else 0)

/-- `getJobStats(jobName?)` for SQLite. -/
def getJobStats (s : SqliteState) (jobName : Option String) : JobStats :=
  match jobName with
  | some n =>
    let a := aggStats (s.job_runs.filter (fun r => r.jobName = n))
    let jobInfo := s.jobs.find? (fun j => j.name = n)
    { totalRuns := a.1, successfulRuns := a.2.1, failedRuns := a.2.2.1
      averageDuration := a.2.2.2
      lastRun := jobInfo.bind (fun j => j.lastRun)
      nextRun := jobInfo.bind (fun j => j.nextRun) }
  | none =>
    let a := aggStats s.job_runs
    { totalRuns := a.1, successfulRuns := a.2.1, failedRuns := a.2.2.1
      averageDuration := a.2.2.2 }

/-- `acquireLock`: first `DELETE FROM locks WHERE expires_at < now`,
then `INSERT ... ON CONFLICT(job_name) DO UPDATE ... WHERE worker_id =
excluded.worker_id OR expires_at < now`; returns `changes > 0`. -/
def acquireLock (s : SqliteState) (jobName workerId : String) (ttl now : Nat) :
    Bool × SqliteState :=
  let locks1 := s.locks.filter (fun l => ¬ l.expires_at < now)
  match locks1.find? (fun l => l.job_name = jobName) with
  | none =>
    (true, { s with locks := locks1 ++ [⟨jobName, workerId, now + ttl⟩] })
  | some l =>
    if l.worker_id = workerId ∨ l.expires_at < now then
      (true, { s with locks := locks1.map (fun x =>
        if x.job_name = jobName then ⟨jobName, workerId, now + ttl⟩ else x) })
    else
      (false, { s with locks := locks1 })

end SQLiteStorageAdapter

/-! ## Executor (`packages/core/src/executor.ts`) -/

/-- `JobExecutionError(jobName, attempt, cause)` (`types.ts`): the
wrapped cause is the failing attempt's error message. -/
structure JobExecutionError where
  jobName : String
  attempt : Nat
  cause : String
deriving DecidableEq, Repr

/-- `FixedBackoffStrategy`; the constructor default is 1000 ms. -/
structure FixedBackoffStrategy where
  delay : Nat := 1000
deriving DecidableEq, Repr

/-- `calculate(attempt)` for the fixed strategy: the constant delay. -/
def FixedBackoffStrategy.calculate (s : FixedBackoffStrategy) (_attempt : Nat) : Nat :=
  s.delay

/-- `ExponentialBackoffStrategy`; constructor defaults are base 1000 ms,
max 30000 ms, factor 2. -/
structure ExponentialBackoffStrategy where
  baseDelay : Nat := 1000
  maxDelay : Nat := 30000
  factor : Nat := 2
deriving DecidableEq, Repr

/-- `calculate(attempt)`: `min(baseDelay * factor^(attempt-1), maxDelay)`. -/
def ExponentialBackoffStrategy.calculate (s : ExponentialBackoffStrategy) (attempt : Nat) : Nat :=
  min (s.baseDelay * s.factor ^ (attempt - 1)) s.maxDelay

namespace JobExecutor

/-- `getBackoffStrategy(strategy?)`: `'exponential'` selects a default
`ExponentialBackoffStrategy`, anything else (including `undefined`)
a default `FixedBackoffStrategy`. -/
def getBackoffStrategy : Option BackoffKind → Nat → Nat
  | some BackoffKind.exponential => ExponentialBackoffStrategy.calculate {}
  | _ => FixedBackoffStrategy.calculate {}

/-- Per-execution environment abstracting the nondeterministic inputs of
`executeJob`: `outcome k` is what the handler invocation of attempt `k`
does (`Except.error` models a throw, including the synthetic timeout
rejection), `ids k` is the `randomUUID()` drawn for attempt `k`'s run
(`ids 1` is the `runId` drawn at the top of `executeJob`), and
`startOf k` / `endOf k` are the `new Date()` samples taken at the start
and end of attempt `k` (index 0 for the dates sampled by the skip
branches). -/
structure ExecEnv where
  outcome : Nat → Except String ResultVal
  ids : Nat → String
  startOf : Nat → Nat
  endOf : Nat → Nat

/-- Output of one retry loop: the run store after all `saveJobRun`
upserts, the returned (or thrown) value, and the backoff delays slept
between attempts, in order. -/
structure RetOut where
  store : List (String × JobRun)
  result : Except JobExecutionError JobRun
  delays : List Nat

/-- The `for (attempt = 1; attempt <= maxRetries + 1; ...)` loop of
`executeJobWithRetries`, with `remaining = maxRetries + 1 - attempt`
counting the iterations still allowed, so the source's last-attempt
test `attempt === maxRetries + 1` is `remaining = 0`.  Each iteration
saves the run as `running` with a fresh `startTime`, invokes the
handler, then either saves it `completed` (returning it) or saves it
`failed`; a non-final failure sleeps the backoff delay and continues
with a fresh `randomUUID()` and `attempt + 1`, a final failure throws
`JobExecutionError`. -/
def runAttempts (jobName : String) (backoff : Option BackoffKind) (env : ExecEnv) :
    Nat → Nat → String → List (String × JobRun) → List Nat → RetOut
  | attempt, remaining, runId, store, delays =>
    let run1 : JobRun :=
      { id := runId, jobName := jobName, status := RunStatus.running,
        startTime := some (env.startOf attempt), attempt := attempt }
    let store1 := mapSet store runId run1
    match env.outcome attempt with
    | Except.ok r =>
      let run2 := { run1 with
        status := RunStatus.completed, endTime := some (env.endOf attempt),
        result := some r }
      { store := mapSet store1 runId run2, result := Except.ok run2, delays := delays }
    | Except.error e =>
      let run2 := { run1 with
        status := RunStatus.failed, endTime := some (env.endOf attempt),
        error := some e }
      let store2 := mapSet store1 runId run2
      match remaining with
      | 0 => { store := store2, result := Except.error ⟨jobName, attempt, e⟩, delays := delays }
      | Nat.succ rem =>
        runAttempts jobName backoff env (attempt + 1) rem (env.ids (attempt + 1)) store2
          (delays ++ [getBackoffStrategy backoff attempt])

/-- Output of `executeJob`: the retry loop's outputs plus whether
`acquireLock` was consulted at all. -/
structure ExecOutput where
  store : List (String × JobRun)
  result : Except JobExecutionError JobRun
  delays : List Nat
  lockAcquireCalled : Bool

/-- `executeJob(job)`.  A paused job returns a synthesized completed
run with result `skipped / "Job is paused"` before any lock call; a
failed lock acquisition (modelled by the `lockAcquired` flag, the
storage's answer) returns the `"Already running on another worker"`
skip.  Otherwise an initial `pending` run with `attempt = 1` is saved
and the retry loop runs with `maxRetries = job.options.retries || 0`. -/
def executeJob (job : Job) (env : ExecEnv) (lockAcquired : Bool)
    (store : List (String × JobRun)) : ExecOutput :=
  if job.isPaused then
    { store := store
      result := Except.ok
        { id := env.ids 1, jobName := job.name, status := RunStatus.completed,
          startTime := some (env.startOf 0), endTime := some (env.endOf 0),
          attempt := 1, result := some (ResultVal.skipped "Job is paused") }
      delays := [], lockAcquireCalled := false }
  else if lockAcquired = false then
    { store := store
      result := Except.ok
        { id := env.ids 1, jobName := job.name, status := RunStatus.completed,
          startTime := some (env.startOf 0), endTime := some (env.endOf 0),
          attempt := 1,
          result := some (ResultVal.skipped "Already running on another worker") }
      delays := [], lockAcquireCalled := true }
  else
    let runId := env.ids 1
    let initialRun : JobRun :=
      { id := runId, jobName := job.name, status := RunStatus.pending, attempt := 1 }
    let store1 := mapSet store runId initialRun
    let maxRetries := job.options.retries.getD 0
    let r := runAttempts job.name job.options.backoff env 1 maxRetries runId store1 []
    { store := r.store, result := r.result, delays := r.delays, lockAcquireCalled := true }

/-- Number of handler attempts the loop performs starting at `attempt`
with `remaining` retries left: it stops at the first success, else
after the final allowed attempt. -/
def attemptsTaken (outcome : Nat → Except String ResultVal) : Nat → Nat → Nat
  | _, 0 => 1
  | attempt, Nat.succ rem =>
    match outcome attempt with
    | Except.ok _ => 1
    | Except.error _ => 1 + attemptsTaken outcome (attempt + 1) rem

/-- The persisted record attempt `i` ends with: completed with the
handler result on success, failed with the error message otherwise. -/
def finalRecord (jobName : String) (env : ExecEnv) (i : Nat) : JobRun :=
  match env.outcome i with
  | Except.ok r =>
    { id := env.ids i, jobName := jobName, status := RunStatus.completed,
      startTime := some (env.startOf i), endTime := some (env.endOf i),
      result := some r, attempt := i }
  | Except.error e =>
    { id := env.ids i, jobName := jobName, status := RunStatus.failed,
      startTime := some (env.startOf i), endTime := some (env.endOf i),
      error := some e, attempt := i }

/-- The value the loop returns (or throws) when its last attempt is
`last`. -/
def finalResult (jobName : String) (env : ExecEnv) (last : Nat) :
    Except JobExecutionError JobRun :=
  match env.outcome last with
  | Except.ok _ => Except.ok (finalRecord jobName env last)
  | Except.error e => Except.error ⟨jobName, last, e⟩

end JobExecutor

/-! ## Scheduler (`packages/core/src/scheduler.ts`)

The cron parser (`parseExpression` from `cron-parser`) is the external
black box of the spec; it is abstracted as `parses : String → Option
Nat` returning the next fire epoch, `none` when the expression throws
at parse time.  Timers are modelled by the set of job names with an
armed timer. -/

/-- `Scheduler` instance state: the `jobs` map, the `timers` map
(modelled by its key set) and the running flag. -/
structure SchedulerState where
  jobs : List (String × Job) := []
  timers : List String := []
  isRunning : Bool := false
deriving DecidableEq, Repr

namespace Scheduler

/-- `scheduleJob(job)`: parse the expression, store the next fire on
`job.nextRun` and arm a timer.  A parse failure is caught, logged, and
leaves the scheduler untouched (no timer, no rethrow). -/
def scheduleJob (parses : String → Option Nat) (s : SchedulerState) (job : Job) :
    SchedulerState :=
  match parses job.schedule with
  | some nextRun =>
    { s with
      jobs := mapSet s.jobs job.name { job with nextRun := some nextRun }
      timers := if job.name ∈ s.timers then s.timers else s.timers ++ [job.name] }
  | none => s

/-- `addJob(job)`: put the job in the map; arm it at once when the
scheduler is running and the job is active. -/
def addJob (parses : String → Option Nat) (s : SchedulerState) (job : Job) :
    SchedulerState :=
  let s1 := { s with jobs := mapSet s.jobs job.name job }
  if s1.isRunning ∧ job.isActive then scheduleJob parses s1 job else s1

/-- `start()`: idempotent; arms every active job. -/
def start (parses : String → Option Nat) (s : SchedulerState) : SchedulerState :=
  if s.isRunning then s
  else
    let s1 := { s with isRunning := true }
    (mapValues s1.jobs).foldl
      (fun acc job => if job.isActive then scheduleJob parses acc job else acc) s1

/-- `stop()`: idempotent; clears every timer. -/
def stop (s : SchedulerState) : SchedulerState :=
  if s.isRunning then { s with isRunning := false, timers := [] } else s

end Scheduler

/-! ## Coordinator facade (`Cronx` class, `packages/core/src/types.ts`
concatenation, lines 129-427) -/

/-- `CronxError(message)` raised by the facade (it carries no `code`
here; `schedule` throws the base class, not a dedicated
invalid-configuration subclass). -/
inductive CronxErr
  | cronxError (message : String)
deriving DecidableEq, Repr

/-- Coordinator state: the storage's job table (every adapter upserts
`saveJob` by name), connect/disconnect event counters standing for the
adapter's `connect()`/`disconnect()` side effects, the in-memory
handler table (keyed by name), the scheduler, and `isStarted`. -/
structure CronxState where
  storedJobs : List (String × Job) := []
  connectCount : Nat := 0
  disconnectCount : Nat := 0
  handlers : List String := []
  sched : SchedulerState := {}
  isStarted : Bool := false
deriving DecidableEq, Repr

/-- JS truthiness test `!options.name`: true for a missing name and for
the empty string. -/
def jsFalsyName : Option String → Bool
  | none => true
  | some s => s = ""

/-- `isRunning()`. -/
def CronxState.isRunning (s : CronxState) : Bool :=
  s.isStarted

/-- `schedule(schedule, handler, options)`: reject a falsy
`options.name` with `CronxError("Job name is required")`; otherwise
build the job (`isActive: true, isPaused: false`), register the
handler, `saveJob`, and `scheduler.addJob`.  The cron expression is
never parsed here. -/
def CronxState.schedule (parses : String → Option Nat) (s : CronxState)
    (schedule : String) (options : JobOptions) (now : Nat) :
    Except CronxErr CronxState :=
  if jsFalsyName options.name then
    Except.error (CronxErr.cronxError "Job name is required")
  else
    let name := options.name.getD ""
    let job : Job :=
      { name := name, schedule := schedule, options := options,
        isActive := true, isPaused := false, createdAt := now, updatedAt := now }
    let s1 := { s with
      handlers := if name ∈ s.handlers then s.handlers else s.handlers ++ [name]
      storedJobs := mapSet s.storedJobs name job }
    Except.ok { s1 with sched := Scheduler.addJob parses s1.sched job }

/-- `loadJobsFromStorage()`: add each stored job that has a registered
handler to the scheduler; warn (only) about the rest. -/
def CronxState.loadJobsFromStorage (parses : String → Option Nat) (s : CronxState) :
    CronxState :=
  (mapValues s.storedJobs).foldl
    (fun acc job =>
      if job.name ∈ acc.handlers then
        { acc with sched := Scheduler.addJob parses acc.sched job }
      else acc) s

/-- `start()`: an early return when already started; otherwise connect
storage, reload jobs, start the scheduler, set the flag. -/
def CronxState.start (parses : String → Option Nat) (s : CronxState) : CronxState :=
  if s.isStarted then s
  else
    let s1 := { s with connectCount := s.connectCount + 1 }
    let s2 := CronxState.loadJobsFromStorage parses s1
    let s3 := { s2 with sched := Scheduler.start parses s2.sched }
    { s3 with isStarted := true }

/-- `stop()`: an early return when not started; otherwise stop the
scheduler, disconnect storage, clear the flag. -/
def CronxState.stop (s : CronxState) : CronxState :=
  if s.isStarted then
    let s1 := { s with sched := Scheduler.stop s.sched }
    let s2 := { s1 with disconnectCount := s1.disconnectCount + 1 }
    { s2 with isStarted := false }
  else s

/-! ## Map lemmas -/

theorem mapSet_of_not_mem {α : Type} {m : List (String × α)} {k : String} (v : α)
    (h : ¬ k ∈ mapKeys m) : mapSet m k v = m ++ [(k, v)] := by
  unfold mapSet
  have hany : m.any (fun p => decide (p.1 = k)) = false := by
    rw [List.any_eq_false]
    intro p hp
    simp only [decide_eq_true_eq]
    intro hpk
    exact h (by unfold mapKeys; exact List.mem_map.mpr ⟨p, hp, hpk⟩)
  simp [hany]

theorem map_overwrite_id {α : Type} (v : α) :
    ∀ (l : List (String × α)) (k : String), ¬ k ∈ mapKeys l →
      l.map (fun p => if p.1 = k then (k, v) else p) = l := by
  intro l
  induction l with
  | nil => intro k _; rfl
  | cons p rest ih =>
    intro k hl
    simp only [mapKeys, List.map_cons, List.mem_cons, not_or] at hl
    simp only [List.map_cons]
    rw [if_neg (fun hpk => hl.1 hpk.symm), ih k hl.2]

theorem mapSet_last {α : Type} {base : List (String × α)} {k : String} (w v : α)
    (h : ¬ k ∈ mapKeys base) : mapSet (base ++ [(k, w)]) k v = base ++ [(k, v)] := by
  unfold mapSet
  have hany : (base ++ [(k, w)]).any (fun p => decide (p.1 = k)) = true := by
    simp
  rw [if_pos hany, List.map_append, map_overwrite_id v base k h]
  simp

theorem mapGet_append_of_not_mem {α : Type} {xs : List (String × α)} (ys : List (String × α))
    {k : String} (h : ¬ k ∈ mapKeys xs) : mapGet (xs ++ ys) k = mapGet ys k := by
  unfold mapGet
  rw [List.find?_append]
  have hfind : xs.find? (fun p => decide (p.1 = k)) = none := by
    rw [List.find?_eq_none]
    intro p hp
    simp only [decide_eq_true_eq]
    intro hpk
    exact h (by unfold mapKeys; exact List.mem_map.mpr ⟨p, hp, hpk⟩)
  simp [hfind]

/-! ## Coordinator lifecycle lemmas -/

theorem start_of_started (parses : String → Option Nat) (s : CronxState)
    (h : s.isStarted = true) : CronxState.start parses s = s := by
  unfold CronxState.start
  simp [h]

theorem stop_of_stopped (s : CronxState) (h : s.isStarted = false) :
    CronxState.stop s = s := by
  unfold CronxState.stop
  simp [h]

theorem start_isStarted (parses : String → Option Nat) (s : CronxState) :
    (CronxState.start parses s).isStarted = true := by
  unfold CronxState.start
  split
  · assumption
  · rfl

theorem stop_isStarted (s : CronxState) : (CronxState.stop s).isStarted = false := by
  unfold CronxState.stop
  split
  · rfl
  · simp_all

/-- C10: calling `start()` while already started returns without error
and changes nothing (no storage connect, no job reload, no scheduler
restart), and calling `stop()` while not started likewise changes
nothing; hence `start` and `stop` are idempotent on the coordinator
state (which records connect/disconnect events, the scheduler, the
handler table and the stored jobs). -/
theorem cronx_start_stop_idempotent (parses : String → Option Nat) (s : CronxState) :
    (s.isStarted = true → CronxState.start parses s = s) ∧
    (s.isStarted = false → CronxState.stop s = s) ∧
    CronxState.start parses (CronxState.start parses s) = CronxState.start parses s ∧
    CronxState.stop (CronxState.stop s) = CronxState.stop s := by
  refine ⟨start_of_started parses s, stop_of_stopped s, ?_, ?_⟩
  · exact start_of_started parses _ (start_isStarted parses s)
  · exact stop_of_stopped _ (stop_isStarted s)

/-- Witness for C10 at a started coordinator. -/
theorem cronx_start_stop_idempotent_witness :
    CronxState.start (fun _ => none) { isStarted := true } =
      ({ isStarted := true } : CronxState) :=
  (cronx_start_stop_idempotent (fun _ => none) { isStarted := true }).1 rfl

/-! ## Executor: paused jobs (C4) -/

/-- C4 (amended): executing a paused job synthesizes a completed run
with result `skipped / "Job is paused"`, never consults `acquireLock`,
and does NOT persist the run (the store is returned untouched). -/
theorem executeJob_paused (job : Job) (env : JobExecutor.ExecEnv) (lockAcquired : Bool)
    (store : List (String × JobRun)) (h : job.isPaused = true) :
    JobExecutor.executeJob job env lockAcquired store =
      { store := store
        result := Except.ok
          { id := env.ids 1, jobName := job.name, status := RunStatus.completed,
            startTime := some (env.startOf 0), endTime := some (env.endOf 0),
            attempt := 1, result := some (ResultVal.skipped "Job is paused") }
        delays := [], lockAcquireCalled := false } := by
  unfold JobExecutor.executeJob
  simp [h]

/-- Concrete paused job for the C4 instances. -/
def pausedJobCex : Job :=
  { name := "p", schedule := "* * * * *", options := { name := some "p" },
    isActive := true, isPaused := true, createdAt := 0, updatedAt := 0 }

/-- Concrete execution environment for the C4 instances. -/
def execEnvCex : JobExecutor.ExecEnv :=
  { outcome := fun _ => Except.ok (ResultVal.value 0), ids := fun _ => "r1",
    startOf := fun _ => 0, endOf := fun _ => 0 }

/-- C4 counterexample: on a paused job the returned skip reason is the
string "Job is paused", not "paused", and the synthesized run is not
persisted (the store stays empty). -/
theorem executeJob_paused_cex :
    (JobExecutor.executeJob pausedJobCex execEnvCex true []).store = [] ∧
    (JobExecutor.executeJob pausedJobCex execEnvCex true []).result = Except.ok
      { id := "r1", jobName := "p", status := RunStatus.completed, startTime := some 0,
        endTime := some 0, attempt := 1,
        result := some (ResultVal.skipped "Job is paused") } ∧
    ResultVal.skipped "Job is paused" ≠ ResultVal.skipped "paused" :=
  ⟨rfl, rfl, by decide⟩

/-- Witness for C4 at the concrete paused job. -/
theorem executeJob_paused_witness :
    JobExecutor.executeJob pausedJobCex execEnvCex false [] =
      { store := []
        result := Except.ok
          { id := "r1", jobName := "p", status := RunStatus.completed,
            startTime := some 0, endTime := some 0, attempt := 1,
            result := some (ResultVal.skipped "Job is paused") }
        delays := [], lockAcquireCalled := false } :=
  executeJob_paused pausedJobCex execEnvCex false [] rfl

/-! ## Coordinator registration (C5) -/

/-- C5 (amended): `schedule()` raises `CronxError("Job name is
required")` exactly when `options.name` is missing or empty; the cron
expression is never validated there — an unparseable (in particular
empty) schedule is accepted, the parse failure being caught and logged
inside `Scheduler.scheduleJob`, which then arms no timer. -/
theorem cronx_schedule_validation (parses : String → Option Nat) (s : CronxState)
    (schedule : String) (options : JobOptions) (now : Nat) :
    (jsFalsyName options.name = true →
      CronxState.schedule parses s schedule options now =
        Except.error (CronxErr.cronxError "Job name is required")) ∧
    (jsFalsyName options.name = false →
      ∃ s2, CronxState.schedule parses s schedule options now = Except.ok s2 ∧
        (parses schedule = none → s2.sched.timers = s.sched.timers)) := by
  constructor
  · intro h
    unfold CronxState.schedule
    simp [h]
  · intro h
    unfold CronxState.schedule
    simp only [h, Bool.false_eq_true, if_false]
    refine ⟨_, rfl, ?_⟩
    intro hp
    unfold Scheduler.addJob Scheduler.scheduleJob
    simp only [hp]
    split <;> rfl

/-- Cron oracle that rejects every expression (the empty string in
particular is unparseable). -/
def c5Parses : String → Option Nat := fun _ => none

/-- A coordinator whose scheduler is running. -/
def c5State : CronxState := { sched := { isRunning := true } }

/-- Options with a valid name. -/
def c5Options : JobOptions := { name := some "job1" }

/-- C5 counterexample: with a running scheduler and an unparseable
(empty) cron expression, `schedule()` succeeds instead of raising. -/
theorem cronx_schedule_no_raise_cex :
    (CronxState.schedule c5Parses c5State "" c5Options 0).isOk = true := rfl

/-- Witness for C5 at a missing name. -/
theorem cronx_schedule_validation_witness :
    CronxState.schedule c5Parses {} "" { name := none } 0 =
      Except.error (CronxErr.cronxError "Job name is required") :=
  (cronx_schedule_validation c5Parses {} "" { name := none } 0).1 rfl

/-! ## Backoff (C7) -/

theorem runAttempts_delays_prefix (jobName : String) (backoff : Option BackoffKind)
    (env : JobExecutor.ExecEnv) :
    ∀ (remaining attempt : Nat) (runId : String) (store : List (String × JobRun))
      (delays : List Nat),
      ∃ tail,
        (JobExecutor.runAttempts jobName backoff env attempt remaining runId store
          delays).delays = delays ++ tail := by
  intro remaining
  induction remaining with
  | zero =>
    intro attempt runId store delays
    unfold JobExecutor.runAttempts
    rcases henv : env.outcome attempt with e | r
    · exact ⟨[], by simp [henv]⟩
    · exact ⟨[], by simp [henv]⟩
  | succ rem ih =>
    intro attempt runId store delays
    unfold JobExecutor.runAttempts
    rcases henv : env.outcome attempt with e | r
    · obtain ⟨tail, htail⟩ := ih (attempt + 1) (env.ids (attempt + 1))
        (mapSet (mapSet store runId
          { id := runId, jobName := jobName, status := RunStatus.running,
            startTime := some (env.startOf attempt), attempt := attempt }) runId
          { id := runId, jobName := jobName, status := RunStatus.failed,
            startTime := some (env.startOf attempt),
            endTime := some (env.endOf attempt), error := some e, attempt := attempt })
        (delays ++ [JobExecutor.getBackoffStrategy backoff attempt])
      refine ⟨[JobExecutor.getBackoffStrategy backoff attempt] ++ tail, ?_⟩
      simp only [henv]
      rw [htail]
      simp
    · exact ⟨[], by simp [henv]⟩

/-- C7: the default fixed backoff returns the constant 1000 ms for
every attempt n ≥ 1, the default exponential backoff returns
min(1000·2^(n−1), 30000) ms, and the delay the executor sleeps before
the first retry is the one the strategy computes at attempt = 1. -/
theorem backoff_strategy_values (n : Nat) (h : 1 ≤ n) :
    FixedBackoffStrategy.calculate {} n = 1000 ∧
    ExponentialBackoffStrategy.calculate {} n = min (1000 * 2 ^ (n - 1)) 30000 ∧
    (∀ (job : Job) (env : JobExecutor.ExecEnv) (e : String)
        (store : List (String × JobRun)),
      job.isPaused = false → 1 ≤ job.options.retries.getD 0 →
      env.outcome 1 = Except.error e →
      (JobExecutor.executeJob job env true store).delays.head? =
        some (JobExecutor.getBackoffStrategy job.options.backoff 1)) := by
  refine ⟨rfl, rfl, ?_⟩
  intro job env e store hp hr houtcome
  unfold JobExecutor.executeJob
  simp only [hp, Bool.false_eq_true, if_false]
  obtain ⟨m, hm⟩ : ∃ m, job.options.retries.getD 0 = m + 1 :=
    ⟨job.options.retries.getD 0 - 1, (Nat.succ_pred_eq_of_pos hr).symm⟩
  rw [hm]
  unfold JobExecutor.runAttempts
  simp only [houtcome]
  obtain ⟨tail, htail⟩ := runAttempts_delays_prefix job.name job.options.backoff env m 2
    (env.ids 2)
    (mapSet (mapSet (mapSet store (env.ids 1)
      { id := env.ids 1, jobName := job.name, status := RunStatus.pending, attempt := 1 })
      (env.ids 1)
      { id := env.ids 1, jobName := job.name, status := RunStatus.running,
        startTime := some (env.startOf 1), attempt := 1 }) (env.ids 1)
      { id := env.ids 1, jobName := job.name, status := RunStatus.failed,
        startTime := some (env.startOf 1), endTime := some (env.endOf 1),
        error := some e, attempt := 1 })
    ([] ++ [JobExecutor.getBackoffStrategy job.options.backoff 1])
  rw [htail]
  simp

/-! ## Executor retry-loop characterization (C2, C3) -/

theorem attemptsTaken_pos (o : Nat → Except String ResultVal) (a r : Nat) :
    1 ≤ JobExecutor.attemptsTaken o a r := by
  cases r with
  | zero => simp [JobExecutor.attemptsTaken]
  | succ rem =>
    unfold JobExecutor.attemptsTaken
    rcases henv : o a with e | v <;> simp only [henv] <;> omega

theorem attemptsTaken_le (o : Nat → Except String ResultVal) :
    ∀ (r a : Nat), JobExecutor.attemptsTaken o a r ≤ r + 1 := by
  intro r
  induction r with
  | zero => intro a; simp [JobExecutor.attemptsTaken]
  | succ rem ih =>
    intro a
    unfold JobExecutor.attemptsTaken
    rcases henv : o a with e | v <;> simp only [henv]
    · have := ih (a + 1); omega
    · omega

theorem attemptsTaken_nonfinal_fail (o : Nat → Except String ResultVal) :
    ∀ (r a i : Nat), a ≤ i → i + 1 < a + JobExecutor.attemptsTaken o a r →
      ∃ e, o i = Except.error e := by
  intro r
  induction r with
  | zero =>
    intro a i h1 h2
    simp [JobExecutor.attemptsTaken] at h2
    omega
  | succ rem ih =>
    intro a i h1 h2
    unfold JobExecutor.attemptsTaken at h2
    rcases henv : o a with e | v
    · simp only [henv] at h2
      by_cases hia : i = a
      · exact ⟨e, hia ▸ henv⟩
      · exact ih (a + 1) i (by omega) (by omega)
    · simp only [henv] at h2
      omega

theorem attemptsTaken_last (o : Nat → Except String ResultVal) :
    ∀ (r a : Nat),
      (∃ v, o (a + (JobExecutor.attemptsTaken o a r - 1)) = Except.ok v) ∨
      (JobExecutor.attemptsTaken o a r = r + 1 ∧
        ∃ e, o (a + (JobExecutor.attemptsTaken o a r - 1)) = Except.error e) := by
  intro r
  induction r with
  | zero =>
    intro a
    simp only [JobExecutor.attemptsTaken]
    rcases henv : o a with e | v
    · exact Or.inr ⟨by trivial, e, by simpa using henv⟩
    · exact Or.inl ⟨v, by simpa using henv⟩
  | succ rem ih =>
    intro a
    unfold JobExecutor.attemptsTaken
    rcases henv : o a with e | v <;> simp only [henv]
    · have hpos := attemptsTaken_pos o (a + 1) rem
      have harith : a + (1 + JobExecutor.attemptsTaken o (a + 1) rem - 1) =
          (a + 1) + (JobExecutor.attemptsTaken o (a + 1) rem - 1) := by omega
      rw [harith]
      rcases ih (a + 1) with h | ⟨hk, h⟩
      · exact Or.inl h
      · exact Or.inr ⟨by omega, h⟩
    · exact Or.inl ⟨v, by simpa using henv⟩

theorem attemptsTaken_all_fail (o : Nat → Except String ResultVal) :
    ∀ (r a : Nat), (∀ j, a ≤ j → j ≤ a + r → ∃ e, o j = Except.error e) →
      JobExecutor.attemptsTaken o a r = r + 1 := by
  intro r
  induction r with
  | zero => intro a _; rfl
  | succ rem ih =>
    intro a h
    unfold JobExecutor.attemptsTaken
    rcases henv : o a with e | v <;> simp only [henv]
    · rw [ih (a + 1) (fun j h1 h2 => h j (by omega) (by omega))]
      omega
    · obtain ⟨e, he⟩ := h a le_rfl (by omega)
      rw [henv] at he
      simp at he

theorem mapGet_range'_map (ids : Nat → String) (g : Nat → JobRun) :
    ∀ (k a i : Nat), a ≤ i → i < a + k →
      (∀ j, a ≤ j → j < a + k → ids i = ids j → i = j) →
      mapGet ((List.range' a k).map (fun j => (ids j, g j))) (ids i) = some (g i) := by
  intro k
  induction k with
  | zero => intro a i h1 h2 _; omega
  | succ kk ih =>
    intro a i h1 h2 hinj
    rw [List.range'_succ]
    by_cases hia : i = a
    · subst hia
      simp [mapGet]
    · have hne : ¬ (ids a = ids i) := fun he => hia (hinj a le_rfl (by omega) he.symm)
      have htail := ih (a + 1) i (by omega) (by omega)
        (fun j hj1 hj2 hej => hinj j (by omega) (by omega) hej)
      simpa [mapGet, List.find?_cons, hne] using htail

theorem runAttempts_initial_overwrite (jobName : String) (backoff : Option BackoffKind)
    (env : JobExecutor.ExecEnv) (attempt remaining : Nat) (r0 : JobRun)
    (base : List (String × JobRun)) (delays : List Nat)
    (h : ¬ env.ids attempt ∈ mapKeys base) :
    JobExecutor.runAttempts jobName backoff env attempt remaining (env.ids attempt)
      (base ++ [(env.ids attempt, r0)]) delays =
    JobExecutor.runAttempts jobName backoff env attempt remaining (env.ids attempt)
      base delays := by
  unfold JobExecutor.runAttempts
  rcases henv : env.outcome attempt with e | r <;>
    simp only [henv] <;>
    rw [mapSet_last r0 _ h, mapSet_of_not_mem _ h]

/-- Full characterization of the retry loop: starting at `attempt` with
`remaining` retries left, over a store containing none of the window's
run ids, it appends exactly one final record per attempt performed,
returns `finalResult` of the last attempt, and appends one backoff
delay per non-final attempt. -/
theorem runAttempts_spec (jobName : String) (backoff : Option BackoffKind)
    (env : JobExecutor.ExecEnv) :
    ∀ (remaining attempt : Nat) (base : List (String × JobRun)) (delays : List Nat),
      (∀ i j, attempt ≤ i → i < j → j ≤ attempt + remaining → env.ids i ≠ env.ids j) →
      (∀ j, attempt ≤ j → j ≤ attempt + remaining → ¬ env.ids j ∈ mapKeys base) →
      JobExecutor.runAttempts jobName backoff env attempt remaining (env.ids attempt)
          base delays =
        { store := base ++
            (List.range' attempt
              (JobExecutor.attemptsTaken env.outcome attempt remaining)).map
              (fun i => (env.ids i, JobExecutor.finalRecord jobName env i))
          result := JobExecutor.finalResult jobName env
            (attempt + (JobExecutor.attemptsTaken env.outcome attempt remaining - 1))
          delays := delays ++
            (List.range' attempt
              (JobExecutor.attemptsTaken env.outcome attempt remaining - 1)).map
              (fun i => JobExecutor.getBackoffStrategy backoff i) } := by
  intro remaining
  induction remaining with
  | zero =>
    intro attempt base delays _ hfresh
    have hid : ¬ env.ids attempt ∈ mapKeys base := hfresh attempt le_rfl (by omega)
    unfold JobExecutor.runAttempts
    rcases henv : env.outcome attempt with e | r
    · simp only [henv]
      rw [mapSet_of_not_mem _ hid, mapSet_last _ _ hid]
      simp [JobExecutor.attemptsTaken, JobExecutor.finalRecord, JobExecutor.finalResult,
        henv, List.range'_succ]
    · simp only [henv]
      rw [mapSet_of_not_mem _ hid, mapSet_last _ _ hid]
      simp [JobExecutor.attemptsTaken, JobExecutor.finalRecord, JobExecutor.finalResult,
        henv, List.range'_succ]
  | succ rem ih =>
    intro attempt base delays hinj hfresh
    have hid : ¬ env.ids attempt ∈ mapKeys base := hfresh attempt le_rfl (by omega)
    unfold JobExecutor.runAttempts
    rcases henv : env.outcome attempt with e | r
    · simp only [henv]
      rw [mapSet_of_not_mem _ hid, mapSet_last _ _ hid]
      have hinjr : ∀ i j, attempt + 1 ≤ i → i < j → j ≤ attempt + 1 + rem →
          env.ids i ≠ env.ids j :=
        fun i j h1 h2 h3 => hinj i j (by omega) h2 (by omega)
      have hfreshr : ∀ j, attempt + 1 ≤ j → j ≤ attempt + 1 + rem →
          ¬ env.ids j ∈ mapKeys (base ++ [(env.ids attempt,
            ({ id := env.ids attempt, jobName := jobName, status := RunStatus.failed,
               startTime := some (env.startOf attempt),
               endTime := some (env.endOf attempt), error := some e,
               attempt := attempt } : JobRun))]) := by
        intro j h1 h2 hmem
        unfold mapKeys at hmem
        rw [List.map_append] at hmem
        rcases List.mem_append.mp hmem with hm | hm
        · exact hfresh j (by omega) (by omega) hm
        · simp only [List.map_cons, List.map_nil, List.mem_singleton] at hm
          exact hinj attempt j le_rfl (by omega) (by omega) hm.symm
      rw [ih (attempt + 1) _ _ hinjr hfreshr]
      have hK : JobExecutor.attemptsTaken env.outcome attempt (rem + 1) =
          1 + JobExecutor.attemptsTaken env.outcome (attempt + 1) rem := by
        conv_lhs => unfold JobExecutor.attemptsTaken
        simp only [henv]
      have hpos := attemptsTaken_pos env.outcome (attempt + 1) rem
      set kk := JobExecutor.attemptsTaken env.outcome (attempt + 1) rem with hkk
      simp only [JobExecutor.RetOut.mk.injEq]
      refine ⟨?_, ?_, ?_⟩
      · rw [hK, Nat.add_comm 1 kk, List.range'_succ]
        simp [JobExecutor.finalRecord, henv]
      · rw [hK]
        have harith : attempt + (1 + kk - 1) = (attempt + 1) + (kk - 1) := by omega
        rw [harith]
      · rw [hK]
        have h1 : 1 + kk - 1 = (kk - 1) + 1 := by omega
        rw [h1, List.range'_succ]
        simp
    · simp only [henv]
      rw [mapSet_of_not_mem _ hid, mapSet_last _ _ hid]
      have hK : JobExecutor.attemptsTaken env.outcome attempt (rem + 1) = 1 := by
        conv_lhs => unfold JobExecutor.attemptsTaken
        simp only [henv]
      rw [hK]
      simp [JobExecutor.finalRecord, JobExecutor.finalResult, henv, List.range'_succ]

/-- Closed form of a locked, non-paused execution over an empty run
store: the initial `pending` save is immediately overwritten by the
first attempt, and the loop appends one final record per attempt. -/
theorem executeJob_run_eq (job : Job) (env : JobExecutor.ExecEnv)
    (hp : job.isPaused = false)
    (hinj : ∀ i j, 1 ≤ i → i < j → j ≤ job.options.retries.getD 0 + 1 →
      env.ids i ≠ env.ids j) :
    JobExecutor.executeJob job env true [] =
      { store := (List.range' 1
          (JobExecutor.attemptsTaken env.outcome 1 (job.options.retries.getD 0))).map
          (fun i => (env.ids i, JobExecutor.finalRecord job.name env i))
        result := JobExecutor.finalResult job.name env
          (1 + (JobExecutor.attemptsTaken env.outcome 1 (job.options.retries.getD 0) - 1))
        delays := (List.range' 1
          (JobExecutor.attemptsTaken env.outcome 1 (job.options.retries.getD 0) - 1)).map
          (fun i => JobExecutor.getBackoffStrategy job.options.backoff i)
        lockAcquireCalled := true } := by
  have hinjs : ∀ i j, 1 ≤ i → i < j → j ≤ 1 + job.options.retries.getD 0 →
      env.ids i ≠ env.ids j :=
    fun i j h1 h2 h3 => hinj i j h1 h2 (by omega)
  have hfreshs : ∀ j, 1 ≤ j → j ≤ 1 + job.options.retries.getD 0 →
      ¬ env.ids j ∈ mapKeys ([] : List (String × JobRun)) := by
    intro j _ _ hm
    simp [mapKeys] at hm
  unfold JobExecutor.executeJob
  simp only [hp, Bool.false_eq_true, if_false]
  rw [show mapSet ([] : List (String × JobRun)) (env.ids 1)
      { id := env.ids 1, jobName := job.name, status := RunStatus.pending, attempt := 1 } =
      [] ++ [(env.ids 1,
        ({ id := env.ids 1, jobName := job.name, status := RunStatus.pending,
           attempt := 1 } : JobRun))] from rfl]
  rw [runAttempts_initial_overwrite job.name job.options.backoff env 1
    (job.options.retries.getD 0) _ [] [] (by intro hm; simp [mapKeys] at hm)]
  rw [runAttempts_spec job.name job.options.backoff env (job.options.retries.getD 0) 1
    [] [] hinjs hfreshs]
  rfl

theorem finalRecord_attempt (jobName : String) (env : JobExecutor.ExecEnv) (i : Nat) :
    (JobExecutor.finalRecord jobName env i).attempt = i := by
  unfold JobExecutor.finalRecord
  rcases henv : env.outcome i with e | r <;> simp [henv]

/-- C2: a locked execution of a job with retries = R performs between 1
and R+1 handler attempts and persists exactly one JobRun record per
attempt, the records carrying attempt numbers 1, 2, …, k and pairwise
distinct ids (the per-attempt `randomUUID()` draws) — never a single
record with accumulating counters. -/
theorem executeJob_one_record_per_attempt (job : Job) (env : JobExecutor.ExecEnv)
    (hp : job.isPaused = false)
    (hinj : ∀ i j, 1 ≤ i → i < j → j ≤ job.options.retries.getD 0 + 1 →
      env.ids i ≠ env.ids j) :
    1 ≤ JobExecutor.attemptsTaken env.outcome 1 (job.options.retries.getD 0) ∧
    JobExecutor.attemptsTaken env.outcome 1 (job.options.retries.getD 0) ≤
      job.options.retries.getD 0 + 1 ∧
    (JobExecutor.executeJob job env true []).store.length =
      JobExecutor.attemptsTaken env.outcome 1 (job.options.retries.getD 0) ∧
    (JobExecutor.executeJob job env true []).store.map (fun p => p.2.attempt) =
      List.range' 1 (JobExecutor.attemptsTaken env.outcome 1 (job.options.retries.getD 0)) ∧
    (JobExecutor.executeJob job env true []).store.map (fun p => p.1) =
      (List.range' 1
        (JobExecutor.attemptsTaken env.outcome 1 (job.options.retries.getD 0))).map
        env.ids ∧
    ((JobExecutor.executeJob job env true []).store.map (fun p => p.1)).Nodup := by
  have hkle := attemptsTaken_le env.outcome (job.options.retries.getD 0) 1
  rw [executeJob_run_eq job env hp hinj]
  refine ⟨attemptsTaken_pos env.outcome 1 _, hkle, ?_, ?_, ?_, ?_⟩
  · simp
  · rw [List.map_map]
    have : ((fun p => p.2.attempt) ∘ fun i =>
        ((env.ids i, JobExecutor.finalRecord job.name env i) : String × JobRun)) =
        fun i => (JobExecutor.finalRecord job.name env i).attempt := rfl
    rw [this]
    have hcong : ∀ i ∈ List.range' 1
        (JobExecutor.attemptsTaken env.outcome 1 (job.options.retries.getD 0)),
        (JobExecutor.finalRecord job.name env i).attempt = i :=
      fun i _ => finalRecord_attempt job.name env i
    rw [List.map_congr_left hcong]
    simp
  · rw [List.map_map]
    rfl
  · rw [List.map_map]
    have heq : ((fun p => p.1) ∘ fun i =>
        ((env.ids i, JobExecutor.finalRecord job.name env i) : String × JobRun)) =
        fun i => env.ids i := rfl
    rw [heq]
    refine List.Nodup.map_on ?_ (List.nodup_range' 1 _)
    intro x hx y hy hxy
    rw [List.mem_range'_1] at hx hy
    by_contra hne
    rcases Nat.lt_or_ge x y with hlt | hge
    · exact hinj x y hx.1 hlt (by omega) hxy
    · exact hinj y x hy.1 (by omega) (by omega) hxy.symm

/-- Concrete job with one retry for the C2 witness. -/
def c2Job : Job :=
  { name := "c2", schedule := "* * * * *",
    options := { name := some "c2", retries := some 1 },
    isActive := true, isPaused := false, createdAt := 0, updatedAt := 0 }

/-- Environment whose handler always throws, with distinct run ids. -/
def c2Env : JobExecutor.ExecEnv :=
  { outcome := fun _ => Except.error "boom",
    ids := fun n => if n = 1 then "a" else "b",
    startOf := fun n => n, endOf := fun n => n }

/-- Witness for C2 at the concrete always-failing job with retries = 1. -/
theorem executeJob_one_record_per_attempt_witness :
    1 ≤ JobExecutor.attemptsTaken c2Env.outcome 1 (c2Job.options.retries.getD 0) ∧
    JobExecutor.attemptsTaken c2Env.outcome 1 (c2Job.options.retries.getD 0) ≤
      c2Job.options.retries.getD 0 + 1 ∧
    (JobExecutor.executeJob c2Job c2Env true []).store.length =
      JobExecutor.attemptsTaken c2Env.outcome 1 (c2Job.options.retries.getD 0) ∧
    (JobExecutor.executeJob c2Job c2Env true []).store.map (fun p => p.2.attempt) =
      List.range' 1 (JobExecutor.attemptsTaken c2Env.outcome 1 (c2Job.options.retries.getD 0)) ∧
    (JobExecutor.executeJob c2Job c2Env true []).store.map (fun p => p.1) =
      (List.range' 1
        (JobExecutor.attemptsTaken c2Env.outcome 1 (c2Job.options.retries.getD 0))).map
        c2Env.ids ∧
    ((JobExecutor.executeJob c2Job c2Env true []).store.map (fun p => p.1)).Nodup :=
  executeJob_one_record_per_attempt c2Job c2Env rfl
    (by
      intro i j h1 h2 h3
      simp [c2Job] at h3
      have hi : i = 1 := by omega
      have hj : j = 2 := by omega
      subst hi
      subst hj
      simp [c2Env])

/-- C3: every non-final failed attempt is persisted as a failed JobRun
(with endTime and error set) without propagating the error; the loop
raises `JobExecutionError` wrapping the last cause exactly when the
final attempt (number retries+1) fails; and on an attempt's success it
returns that completed run. -/
theorem executeJob_error_policy (job : Job) (env : JobExecutor.ExecEnv)
    (hp : job.isPaused = false)
    (hinj : ∀ i j, 1 ≤ i → i < j → j ≤ job.options.retries.getD 0 + 1 →
      env.ids i ≠ env.ids j) :
    (∀ i, 1 ≤ i →
      i + 1 ≤ JobExecutor.attemptsTaken env.outcome 1 (job.options.retries.getD 0) →
      ∃ e, env.outcome i = Except.error e ∧
        mapGet (JobExecutor.executeJob job env true []).store (env.ids i) = some
          { id := env.ids i, jobName := job.name, status := RunStatus.failed,
            startTime := some (env.startOf i), endTime := some (env.endOf i),
            error := some e, attempt := i }) ∧
    ((∃ v, env.outcome
        (JobExecutor.attemptsTaken env.outcome 1 (job.options.retries.getD 0)) =
        Except.ok v) →
      (JobExecutor.executeJob job env true []).result = Except.ok
        (JobExecutor.finalRecord job.name env
          (JobExecutor.attemptsTaken env.outcome 1 (job.options.retries.getD 0))) ∧
      (JobExecutor.finalRecord job.name env
        (JobExecutor.attemptsTaken env.outcome 1
          (job.options.retries.getD 0))).status = RunStatus.completed) ∧
    ((∀ j, 1 ≤ j → j ≤ job.options.retries.getD 0 + 1 →
        ∃ e, env.outcome j = Except.error e) →
      ∃ e, env.outcome (job.options.retries.getD 0 + 1) = Except.error e ∧
        (JobExecutor.executeJob job env true []).result =
          Except.error ⟨job.name, job.options.retries.getD 0 + 1, e⟩) ∧
    ((∃ err, (JobExecutor.executeJob job env true []).result = Except.error err) ↔
      (∀ j, 1 ≤ j → j ≤ job.options.retries.getD 0 + 1 →
        ∃ e, env.outcome j = Except.error e)) := by
  have hk1 := attemptsTaken_pos env.outcome 1 (job.options.retries.getD 0)
  have hkle := attemptsTaken_le env.outcome (job.options.retries.getD 0) 1
  have hfin : 1 + (JobExecutor.attemptsTaken env.outcome 1
      (job.options.retries.getD 0) - 1) =
      JobExecutor.attemptsTaken env.outcome 1 (job.options.retries.getD 0) := by omega
  have hall : (∀ j, 1 ≤ j → j ≤ job.options.retries.getD 0 + 1 →
      ∃ e, env.outcome j = Except.error e) →
      ∃ e, env.outcome (job.options.retries.getD 0 + 1) = Except.error e ∧
        (JobExecutor.executeJob job env true []).result =
          Except.error ⟨job.name, job.options.retries.getD 0 + 1, e⟩ := by
    intro h
    have hkR : JobExecutor.attemptsTaken env.outcome 1 (job.options.retries.getD 0) =
        job.options.retries.getD 0 + 1 :=
      attemptsTaken_all_fail env.outcome (job.options.retries.getD 0) 1
        (fun j h1 h2 => h j h1 (by omega))
    obtain ⟨e, he⟩ := h (job.options.retries.getD 0 + 1) (by omega) le_rfl
    refine ⟨e, he, ?_⟩
    rw [executeJob_run_eq job env hp hinj]
    show JobExecutor.finalResult job.name env _ = _
    rw [hfin, hkR]
    unfold JobExecutor.finalResult
    rw [he]
  refine ⟨?_, ?_, hall, ?_⟩
  · intro i hi1 hik
    obtain ⟨e, he⟩ := attemptsTaken_nonfinal_fail env.outcome
      (job.options.retries.getD 0) 1 i hi1 (by omega)
    refine ⟨e, he, ?_⟩
    rw [executeJob_run_eq job env hp hinj]
    show mapGet ((List.range' 1 _).map _) (env.ids i) = _
    rw [mapGet_range'_map env.ids (fun j => JobExecutor.finalRecord job.name env j) _ 1 i
      hi1 (by omega) ?hinj2]
    case hinj2 =>
      intro j hj1 hj2 hej
      by_contra hne
      rcases Nat.lt_or_ge i j with hlt | hge
      · exact hinj i j hi1 hlt (by omega) hej
      · exact hinj j i hj1 (by omega) (by omega) hej.symm
    unfold JobExecutor.finalRecord
    rw [he]
  · intro ⟨v, hv⟩
    constructor
    · rw [executeJob_run_eq job env hp hinj]
      show JobExecutor.finalResult job.name env _ = _
      rw [hfin]
      unfold JobExecutor.finalResult
      rw [hv]
    · unfold JobExecutor.finalRecord
      rw [hv]
  · constructor
    · rintro ⟨err, herr⟩
      rcases attemptsTaken_last env.outcome (job.options.retries.getD 0) 1 with
        ⟨v, hv⟩ | ⟨hkR, e, he⟩
      · exfalso
        rw [executeJob_run_eq job env hp hinj] at herr
        revert herr
        show ¬ JobExecutor.finalResult job.name env _ = _
        unfold JobExecutor.finalResult
        rw [hv]
        simp
      · intro j hj1 hj2
        by_cases hjl : j = job.options.retries.getD 0 + 1
        · subst hjl
          exact ⟨e, by rw [show job.options.retries.getD 0 + 1 =
              1 + (JobExecutor.attemptsTaken env.outcome 1
                (job.options.retries.getD 0) - 1) by omega]; exact he⟩
        · exact attemptsTaken_nonfinal_fail env.outcome
            (job.options.retries.getD 0) 1 j hj1 (by omega)
    · intro h
      obtain ⟨e, _, he⟩ := hall h
      exact ⟨_, he⟩

/-- Concrete job with one retry for the C3 witness. -/
def c3Job : Job :=
  { name := "c3", schedule := "* * * * *",
    options := { name := some "c3", retries := some 1 },
    isActive := true, isPaused := false, createdAt := 0, updatedAt := 0 }

/-- Environment that fails the first attempt and succeeds on the
second, with distinct run ids. -/
def c3Env : JobExecutor.ExecEnv :=
  { outcome := fun n => if n = 1 then Except.error "boom" else Except.ok (ResultVal.value 7),
    ids := fun n => if n = 1 then "a" else "b",
    startOf := fun n => n, endOf := fun n => n }

/-- Witness for C3 at the concrete fail-then-succeed job. -/
theorem executeJob_error_policy_witness :
    (∀ i, 1 ≤ i →
      i + 1 ≤ JobExecutor.attemptsTaken c3Env.outcome 1 (c3Job.options.retries.getD 0) →
      ∃ e, c3Env.outcome i = Except.error e ∧
        mapGet (JobExecutor.executeJob c3Job c3Env true []).store (c3Env.ids i) = some
          { id := c3Env.ids i, jobName := c3Job.name, status := RunStatus.failed,
            startTime := some (c3Env.startOf i), endTime := some (c3Env.endOf i),
            error := some e, attempt := i }) ∧
    ((∃ v, c3Env.outcome
        (JobExecutor.attemptsTaken c3Env.outcome 1 (c3Job.options.retries.getD 0)) =
        Except.ok v) →
      (JobExecutor.executeJob c3Job c3Env true []).result = Except.ok
        (JobExecutor.finalRecord c3Job.name c3Env
          (JobExecutor.attemptsTaken c3Env.outcome 1 (c3Job.options.retries.getD 0))) ∧
      (JobExecutor.finalRecord c3Job.name c3Env
        (JobExecutor.attemptsTaken c3Env.outcome 1
          (c3Job.options.retries.getD 0))).status = RunStatus.completed) ∧
    ((∀ j, 1 ≤ j → j ≤ c3Job.options.retries.getD 0 + 1 →
        ∃ e, c3Env.outcome j = Except.error e) →
      ∃ e, c3Env.outcome (c3Job.options.retries.getD 0 + 1) = Except.error e ∧
        (JobExecutor.executeJob c3Job c3Env true []).result =
          Except.error ⟨c3Job.name, c3Job.options.retries.getD 0 + 1, e⟩) ∧
    ((∃ err, (JobExecutor.executeJob c3Job c3Env true []).result = Except.error err) ↔
      (∀ j, 1 ≤ j → j ≤ c3Job.options.retries.getD 0 + 1 →
        ∃ e, c3Env.outcome j = Except.error e)) :=
  executeJob_error_policy c3Job c3Env rfl
    (by
      intro i j h1 h2 h3
      simp [c3Job] at h3
      have hi : i = 1 := by omega
      have hj : j = 2 := by omega
      subst hi
      subst hj
      simp [c3Env])

/-! ## Lock acquisition (C1) -/

theorem mapGet_map_overwrite {α : Type} (k : String) (v : α) :
    ∀ m : List (String × α), m.any (fun p => decide (p.1 = k)) = true →
      mapGet (m.map (fun p => if p.1 = k then (k, v) else p)) k = some v := by
  intro m
  induction m with
  | nil => intro h; simp at h
  | cons p rest ih =>
    intro h
    simp only [List.map_cons]
    by_cases hp : p.1 = k
    · simp [mapGet, List.find?_cons, hp]
    · have hrest : rest.any (fun p => decide (p.1 = k)) = true := by
        simpa [hp] using h
      have htail := ih hrest
      simpa [mapGet, List.find?_cons, hp] using htail

theorem mapGet_mapSet_self {α : Type} (m : List (String × α)) (k : String) (v : α) :
    mapGet (mapSet m k v) k = some v := by
  unfold mapSet
  by_cases hany : m.any (fun p => decide (p.1 = k)) = true
  · rw [if_pos hany]
    exact mapGet_map_overwrite k v m hany
  · rw [if_neg hany]
    unfold mapGet
    rw [List.find?_append]
    have hnone : m.find? (fun p => decide (p.1 = k)) = none := by
      rw [List.find?_eq_none]
      intro p hp hdec
      exact hany (List.any_eq_true.mpr ⟨p, hp, hdec⟩)
    simp [hnone]

theorem find?_none_filter {α : Type} (P Q : α → Bool) (L : List α)
    (h : L.find? P = none) : (L.filter Q).find? P = none := by
  rw [List.find?_eq_none] at h ⊢
  intro x hx
  exact h x (List.mem_of_mem_filter hx)

theorem find?_filter_keep {α : Type} (P Q : α → Bool) :
    ∀ (L : List α) (l : α), L.find? P = some l → Q l = true →
      (L.filter Q).find? P = some l := by
  intro L
  induction L with
  | nil => intro l h; simp at h
  | cons x rest ih =>
    intro l h hQ
    rw [List.find?_cons] at h
    cases hPx : P x with
    | true =>
      rw [hPx] at h
      have hxl : x = l := by simpa using h
      subst hxl
      rw [List.filter_cons, if_pos hQ, List.find?_cons, hPx]
    | false =>
      rw [hPx] at h
      rw [List.filter_cons]
      by_cases hQx : Q x = true
      · rw [if_pos hQx, List.find?_cons, hPx]
        exact ih l h hQ
      · rw [if_neg hQx]
        exact ih l h hQ

theorem find?_filter_drop {α : Type} (P Q : α → Bool) (L : List α) (l : α)
    (h : L.find? P = some l) (huniq : ∀ x ∈ L, P x = true → x = l)
    (hQ : Q l = false) : (L.filter Q).find? P = none := by
  rw [List.find?_eq_none]
  intro x hx hPx
  have hxl := huniq x (List.mem_of_mem_filter hx) hPx
  subst hxl
  rw [List.mem_filter] at hx
  rw [hx.2] at hQ
  cases hQ

theorem sqlLock_find?_unique (jobName : String) :
    ∀ L : List SqliteLock, List.Pairwise (fun a b => a.job_name ≠ b.job_name) L →
      ∀ l, L.find? (fun x => x.job_name = jobName) = some l →
        ∀ x ∈ L, x.job_name = jobName → x = l := by
  intro L
  induction L with
  | nil => intro _ l h; simp at h
  | cons y rest ih =>
    intro hpw l h x hx hxn
    rw [List.pairwise_cons] at hpw
    rw [List.find?_cons] at h
    by_cases hPy : y.job_name = jobName
    · have hyl : y = l := by simpa [hPy] using h
      rcases List.mem_cons.mp hx with hxy | hxr
      · exact hxy.trans hyl
      · exact absurd (hPy.trans hxn.symm) (hpw.1 x hxr)
    · have h2 : rest.find? (fun x => x.job_name = jobName) = some l := by
        simpa [hPy] using h
      rcases List.mem_cons.mp hx with hxy | hxr
      · exact absurd (hxy ▸ hxn) hPy
      · exact ih hpw.2 l h2 x hxr hxn

theorem find?_map_update (jobName : String) (new : SqliteLock)
    (hnew : new.job_name = jobName) :
    ∀ (L : List SqliteLock) (l : SqliteLock),
      L.find? (fun x => x.job_name = jobName) = some l →
      (L.map (fun x => if x.job_name = jobName then new else x)).find?
        (fun x => x.job_name = jobName) = some new := by
  intro L
  induction L with
  | nil => intro l h; simp at h
  | cons x rest ih =>
    intro l h
    rw [List.find?_cons] at h
    simp only [List.map_cons]
    by_cases hPx : x.job_name = jobName
    · rw [if_pos hPx, List.find?_cons]
      simp [hnew]
    · rw [if_neg hPx, List.find?_cons]
      have h2 : rest.find? (fun x => x.job_name = jobName) = some l := by
        simpa [hPx] using h
      simpa [hPx] using ih l h2

theorem memory_acquireLock_spec (mem : MemoryState) (jobName workerId : String)
    (ttl now : Nat) :
    (((MemoryStorageAdapter.acquireLock mem jobName workerId ttl now).1 = true) ↔
      (match mapGet mem.locks jobName with
       | none => True
       | some l => l.expiresAt ≤ now ∨ l.workerId = workerId)) ∧
    ((mapGet mem.locks jobName = none ∨
      (∃ l, mapGet mem.locks jobName = some l ∧ l.expiresAt ≤ now)) →
      mapGet (MemoryStorageAdapter.acquireLock mem jobName workerId ttl now).2.locks
        jobName = some ⟨workerId, now + ttl⟩) ∧
    ((∃ l, mapGet mem.locks jobName = some l ∧ now < l.expiresAt ∧
        l.workerId = workerId) →
      (MemoryStorageAdapter.acquireLock mem jobName workerId ttl now).2 = mem) := by
  unfold MemoryStorageAdapter.acquireLock
  rcases hml : mapGet mem.locks jobName with _ | l
  · simp only [hml]
    refine ⟨by simp, fun _ => mapGet_mapSet_self mem.locks jobName _, ?_⟩
    rintro ⟨l', hl', _⟩
    cases hl'
  · simp only [hml]
    by_cases hexp : now < l.expiresAt
    · simp only [if_pos hexp]
      refine ⟨?_, ?_, ?_⟩
      · show decide (l.workerId = workerId) = true ↔
          l.expiresAt ≤ now ∨ l.workerId = workerId
        rw [decide_eq_true_eq]
        constructor
        · intro hw
          exact Or.inr hw
        · rintro (hle | hw)
          · omega
          · exact hw
      · rintro (hnone | ⟨l', hl', hle⟩)
        · cases hnone
        · rw [Option.some_inj] at hl'
          subst hl'
          omega
      · rintro ⟨l', _, _, _⟩
        trivial
    · simp only [if_neg hexp]
      refine ⟨?_, fun _ => mapGet_mapSet_self mem.locks jobName _, ?_⟩
      · constructor
        · intro _
          exact Or.inl (by omega)
        · intro _
          trivial
      · rintro ⟨l', hl', hnow, _⟩
        rw [Option.some_inj] at hl'
        subst hl'
        omega

theorem redis_acquireLock_spec (rst : RedisState) (jobName workerId : String)
    (ttl now : Nat) :
    (((RedisStorageAdapter.acquireLock rst jobName workerId ttl now).1 = true) ↔
      RedisStorageAdapter.getLockValue rst jobName now = none) ∧
    (RedisStorageAdapter.getLockValue rst jobName now = none →
      mapGet (RedisStorageAdapter.acquireLock rst jobName workerId ttl now).2.locks
        jobName = some ⟨workerId, now + ttl⟩) := by
  unfold RedisStorageAdapter.acquireLock
  rcases hgl : RedisStorageAdapter.getLockValue rst jobName now with _ | v
  · simp only [hgl]
    exact ⟨by simp, fun _ => mapGet_mapSet_self rst.locks jobName _⟩
  · simp only [hgl]
    refine ⟨by simp, ?_⟩
    intro hnone
    cases hnone

theorem sqlite_acquireLock_spec (sst : SqliteState) (jobName workerId : String)
    (ttl now : Nat)
    (hpk : List.Pairwise (fun a b => a.job_name ≠ b.job_name) sst.locks) :
    (((SQLiteStorageAdapter.acquireLock sst jobName workerId ttl now).1 = true) ↔
      (match sst.locks.find? (fun l => l.job_name = jobName) with
       | none => True
       | some l => l.expires_at < now ∨ l.worker_id = workerId)) ∧
    ((SQLiteStorageAdapter.acquireLock sst jobName workerId ttl now).1 = true →
      (SQLiteStorageAdapter.acquireLock sst jobName workerId ttl now).2.locks.find?
        (fun l => l.job_name = jobName) = some ⟨jobName, workerId, now + ttl⟩) := by
  unfold SQLiteStorageAdapter.acquireLock
  rcases hfo : sst.locks.find? (fun l => l.job_name = jobName) with _ | l
  · have hcu := find?_none_filter (fun l => decide (l.job_name = jobName))
      (fun l => decide (¬ l.expires_at < now)) sst.locks hfo
    simp only [hfo, hcu]
    refine ⟨by simp, ?_⟩
    intro _
    show ((sst.locks.filter (fun l => ¬ l.expires_at < now)) ++
      [(⟨jobName, workerId, now + ttl⟩ : SqliteLock)]).find?
        (fun l => l.job_name = jobName) = some ⟨jobName, workerId, now + ttl⟩
    rw [List.find?_append, hcu]
    simp
  · have huniq := sqlLock_find?_unique jobName sst.locks hpk l hfo
    by_cases hexp : l.expires_at < now
    · have hcu : (sst.locks.filter (fun l => ¬ l.expires_at < now)).find?
          (fun l => l.job_name = jobName) = none := by
        refine find?_filter_drop _ _ sst.locks l hfo ?_ ?_
        · intro x hx hPx
          exact huniq x hx (by simpa using hPx)
        · simp [hexp]
      simp only [hfo, hcu]
      refine ⟨by simp [hexp], ?_⟩
      intro _
      show ((sst.locks.filter (fun l => ¬ l.expires_at < now)) ++
        [(⟨jobName, workerId, now + ttl⟩ : SqliteLock)]).find?
          (fun l => l.job_name = jobName) = some ⟨jobName, workerId, now + ttl⟩
      rw [List.find?_append, hcu]
      simp
    · have hcu : (sst.locks.filter (fun l => ¬ l.expires_at < now)).find?
          (fun l => l.job_name = jobName) = some l := by
        refine find?_filter_keep _ _ sst.locks l hfo ?_
        simp [hexp]
      simp only [hfo, hcu]
      by_cases hw : l.worker_id = workerId
      · simp only [if_pos (Or.inl hw)]
        refine ⟨by simp [hw], ?_⟩
        intro _
        exact find?_map_update jobName _ rfl _ l hcu
      · have hcond : ¬ (l.worker_id = workerId ∨ l.expires_at < now) := by
          rintro (h1 | h2)
          · exact hw h1
          · exact hexp h2
        simp only [if_neg hcond]
        refine ⟨?_, ?_⟩
        · constructor
          · intro hfalse
            exact absurd hfalse (by simp)
          · rintro (h1 | h2)
            · exact absurd h1 hexp
            · exact absurd h2 hw
        · intro hfalse
          exact absurd hfalse (by simp)

/-- C1 (amended): per-adapter `acquireLock` semantics.  Memory: success
iff no lock, or the lock has `expiresAt ≤ now`, or the caller already
owns it — but a re-entrant success on an unexpired own lock leaves the
record (and its `expiresAt`) unchanged; only the no-lock/expired paths
store `(workerId, now + ttl)`.  Redis (`SET NX PX`): success iff no
unexpired key exists — a worker cannot re-acquire its own live lock —
and on success the key holds the caller with expiry `now + ttl`.
SQLite (rows unique by `job_name`, the table's primary key): success
iff no row, or the row is strictly expired (`expires_at < now`, not
`≤`), or the caller owns it; every successful path stores
`(workerId, now + ttl)`. -/
theorem acquireLock_semantics
    (mem : MemoryState) (rst : RedisState) (sst : SqliteState)
    (jobName workerId : String) (ttl now : Nat)
    (hpk : List.Pairwise (fun a b => a.job_name ≠ b.job_name) sst.locks) :
    (((MemoryStorageAdapter.acquireLock mem jobName workerId ttl now).1 = true) ↔
      (match mapGet mem.locks jobName with
       | none => True
       | some l => l.expiresAt ≤ now ∨ l.workerId = workerId)) ∧
    ((mapGet mem.locks jobName = none ∨
      (∃ l, mapGet mem.locks jobName = some l ∧ l.expiresAt ≤ now)) →
      mapGet (MemoryStorageAdapter.acquireLock mem jobName workerId ttl now).2.locks
        jobName = some ⟨workerId, now + ttl⟩) ∧
    ((∃ l, mapGet mem.locks jobName = some l ∧ now < l.expiresAt ∧
        l.workerId = workerId) →
      (MemoryStorageAdapter.acquireLock mem jobName workerId ttl now).2 = mem) ∧
    (((RedisStorageAdapter.acquireLock rst jobName workerId ttl now).1 = true) ↔
      RedisStorageAdapter.getLockValue rst jobName now = none) ∧
    (RedisStorageAdapter.getLockValue rst jobName now = none →
      mapGet (RedisStorageAdapter.acquireLock rst jobName workerId ttl now).2.locks
        jobName = some ⟨workerId, now + ttl⟩) ∧
    (((SQLiteStorageAdapter.acquireLock sst jobName workerId ttl now).1 = true) ↔
      (match sst.locks.find? (fun l => l.job_name = jobName) with
       | none => True
       | some l => l.expires_at < now ∨ l.worker_id = workerId)) ∧
    ((SQLiteStorageAdapter.acquireLock sst jobName workerId ttl now).1 = true →
      (SQLiteStorageAdapter.acquireLock sst jobName workerId ttl now).2.locks.find?
        (fun l => l.job_name = jobName) = some ⟨jobName, workerId, now + ttl⟩) :=
  ⟨(memory_acquireLock_spec mem jobName workerId ttl now).1,
   (memory_acquireLock_spec mem jobName workerId ttl now).2.1,
   (memory_acquireLock_spec mem jobName workerId ttl now).2.2,
   (redis_acquireLock_spec rst jobName workerId ttl now).1,
   (redis_acquireLock_spec rst jobName workerId ttl now).2,
   (sqlite_acquireLock_spec sst jobName workerId ttl now hpk).1,
   (sqlite_acquireLock_spec sst jobName workerId ttl now hpk).2⟩
/-- C1 counterexample: the memory adapter, when the same worker
re-acquires its own unexpired lock (taken at t = 0 with ttl 10,
re-acquired at t = 5), returns true but leaves the stored `expiresAt`
at 10 instead of now + ttl = 15. -/
theorem acquireLock_claim_cex :
    ((MemoryStorageAdapter.acquireLock
        (MemoryStorageAdapter.acquireLock {} "j" "w" 10 0).2 "j" "w" 10 5).1 = true) ∧
    mapGet (MemoryStorageAdapter.acquireLock
        (MemoryStorageAdapter.acquireLock {} "j" "w" 10 0).2 "j" "w" 10 5).2.locks "j" =
      some ⟨"w", 10⟩ ∧
    (10 : Nat) ≠ 5 + 10 :=
  ⟨rfl, rfl, by decide⟩

/-- Witness for C1 at empty adapter states. -/
theorem acquireLock_semantics_witness :
    (((MemoryStorageAdapter.acquireLock {} "j" "w" 10 0).1 = true) ↔
      (match mapGet (MemoryState.locks {}) "j" with
       | none => True
       | some l => l.expiresAt ≤ 0 ∨ l.workerId = "w")) ∧
    ((mapGet (MemoryState.locks {}) "j" = none ∨
      (∃ l, mapGet (MemoryState.locks {}) "j" = some l ∧ l.expiresAt ≤ 0)) →
      mapGet (MemoryStorageAdapter.acquireLock {} "j" "w" 10 0).2.locks "j" =
        some ⟨"w", 0 + 10⟩) ∧
    ((∃ l, mapGet (MemoryState.locks {}) "j" = some l ∧ 0 < l.expiresAt ∧
        l.workerId = "w") →
      (MemoryStorageAdapter.acquireLock {} "j" "w" 10 0).2 = {}) ∧
    (((RedisStorageAdapter.acquireLock {} "j" "w" 10 0).1 = true) ↔
      RedisStorageAdapter.getLockValue {} "j" 0 = none) ∧
    (RedisStorageAdapter.getLockValue {} "j" 0 = none →
      mapGet (RedisStorageAdapter.acquireLock {} "j" "w" 10 0).2.locks "j" =
        some ⟨"w", 0 + 10⟩) ∧
    (((SQLiteStorageAdapter.acquireLock {} "j" "w" 10 0).1 = true) ↔
      (match (SqliteState.locks {}).find? (fun l => l.job_name = "j") with
       | none => True
       | some l => l.expires_at < 0 ∨ l.worker_id = "w")) ∧
    ((SQLiteStorageAdapter.acquireLock {} "j" "w" 10 0).1 = true →
      (SQLiteStorageAdapter.acquireLock {} "j" "w" 10 0).2.locks.find?
        (fun l => l.job_name = "j") = some ⟨"j", "w", 0 + 10⟩) :=
  acquireLock_semantics {} {} {} "j" "w" 10 0 List.Pairwise.nil

/-! ## Run listings (C6) -/

/-- The spec's ordering requirement, written from its words: adjacent
runs are ordered by `startTime` descending and a null `startTime`
never precedes a non-null one. -/
def specOrderedByStartDescNullsLast : List JobRun → Bool
  | [] => true
  | [_] => true
  | a :: b :: rest =>
    (match a.startTime, b.startTime with
     | some x, some y => decide (y ≤ x)
     | some _, none => true
     | none, none => true
     | none, some _ => false) && specOrderedByStartDescNullsLast (b :: rest)

/-- Earlier-saved run with the later `startTime` for the C6
counterexample. -/
def c6RunA : JobRun :=
  { id := "a", jobName := "j", status := RunStatus.completed, startTime := some 1000,
    endTime := some 1000, attempt := 1 }

/-- Later-saved run with the earlier `startTime`. -/
def c6RunB : JobRun :=
  { id := "b", jobName := "j", status := RunStatus.completed, startTime := some 500,
    endTime := some 500, attempt := 1 }

/-- Redis state after saving `c6RunA` then `c6RunB`. -/
def c6Redis : RedisState :=
  RedisStorageAdapter.saveJobRun (RedisStorageAdapter.saveJobRun {} c6RunA) c6RunB

/-- C6 counterexample: the Redis adapter returns runs in reverse save
order (`LPUSH`/`LRANGE`), so after saving a run with `startTime` 1000
and then one with 500, `getJobRuns` yields startTimes [500, 1000] —
not ordered by `startTime` descending. -/
theorem getJobRuns_order_cex :
    specOrderedByStartDescNullsLast
      (RedisStorageAdapter.getJobRuns c6Redis "j" none) = false ∧
    (RedisStorageAdapter.getJobRuns c6Redis "j" none).map (fun r => r.startTime) =
      [some 500, some 1000] :=
  ⟨rfl, rfl⟩

theorem sqlRunDesc_nulls_last {a b : JobRun} (h : SQLiteStorageAdapter.sqlRunDesc a b)
    (ha : a.startTime = none) : b.startTime = none := by
  unfold SQLiteStorageAdapter.sqlRunDesc at h
  rw [ha] at h
  rcases hb : b.startTime with _ | v
  · rfl
  · rw [hb] at h
    exact absurd h (by simp [SQLiteStorageAdapter.sqlDescKeyLe])

/-- C6 (amended): the memory adapter returns the job's runs sorted by
`startTime` descending with a missing `startTime` keyed as the epoch
(`startTime?.getTime() || 0`); the SQLite adapter returns them ordered
by `start_time` descending with NULLs last; the Redis adapter returns
them in reverse save order (most recently saved first, one entry per
save).  A positive `limit` bounds the result in every adapter; a
`limit` of `0` is falsy in JS and is ignored. -/
theorem getJobRuns_order_limit (mem : MemoryState) (sst : SqliteState) (rst : RedisState)
    (jobName : String) (limit : Option Nat) (l : Nat) :
    List.Sorted MemoryStorageAdapter.memRunDesc
      (MemoryStorageAdapter.getJobRuns mem jobName limit) ∧
    (MemoryStorageAdapter.getJobRuns mem jobName none).Perm
      ((mapValues mem.jobRuns).filter (fun r => r.jobName = jobName)) ∧
    (0 < l → (MemoryStorageAdapter.getJobRuns mem jobName (some l)).length ≤ l) ∧
    List.Sorted SQLiteStorageAdapter.sqlRunDesc
      (SQLiteStorageAdapter.getJobRuns sst jobName limit) ∧
    List.Pairwise (fun a b => a.startTime = none → b.startTime = none)
      (SQLiteStorageAdapter.getJobRuns sst jobName limit) ∧
    (0 < l → (SQLiteStorageAdapter.getJobRuns sst jobName (some l)).length ≤ l) ∧
    (0 < l → (RedisStorageAdapter.getJobRuns rst jobName (some l)).length ≤ l) := by
  have hmemSorted : ∀ lim, List.Sorted MemoryStorageAdapter.memRunDesc
      (MemoryStorageAdapter.getJobRuns mem jobName lim) := by
    intro lim
    unfold MemoryStorageAdapter.getJobRuns
    rcases lim with _ | l'
    · exact List.sorted_insertionSort _ _
    · by_cases h0 : l' ≠ 0
      · simp only [if_pos h0]
        exact List.Pairwise.sublist (List.take_sublist _ _)
          (List.sorted_insertionSort _ _)
      · simp only [if_neg h0]
        exact List.sorted_insertionSort _ _
  have hsqlSorted : ∀ lim, List.Sorted SQLiteStorageAdapter.sqlRunDesc
      (SQLiteStorageAdapter.getJobRuns sst jobName lim) := by
    intro lim
    unfold SQLiteStorageAdapter.getJobRuns
    rcases lim with _ | l'
    · exact List.sorted_insertionSort _ _
    · by_cases h0 : l' ≠ 0
      · simp only [if_pos h0]
        exact List.Pairwise.sublist (List.take_sublist _ _)
          (List.sorted_insertionSort _ _)
      · simp only [if_neg h0]
        exact List.sorted_insertionSort _ _
  refine ⟨hmemSorted limit, ?_, ?_, hsqlSorted limit, ?_, ?_, ?_⟩
  · unfold MemoryStorageAdapter.getJobRuns
    exact List.perm_insertionSort _ _
  · intro hl
    unfold MemoryStorageAdapter.getJobRuns
    simp only [if_pos (show l ≠ 0 by omega)]
    exact List.length_take_le l _
  · exact List.Pairwise.imp (fun hab ha => sqlRunDesc_nulls_last hab ha)
      (hsqlSorted limit)
  · intro hl
    unfold SQLiteStorageAdapter.getJobRuns
    simp only [if_pos (show l ≠ 0 by omega)]
    exact List.length_take_le l _
  · intro hl
    unfold RedisStorageAdapter.getJobRuns
    simp only [if_pos (show l ≠ 0 by omega)]
    exact le_trans (List.length_filterMap_le _ _) (List.length_take_le l _)

/-- Witness for C6 at empty states and limit 1. -/
theorem getJobRuns_order_limit_witness :
    (MemoryStorageAdapter.getJobRuns {} "j" (some 1)).length ≤ 1 :=
  ((getJobRuns_order_limit {} {} {} "j" none 1).2.2.1) (by decide)

/-! ## Job deletion (C8) -/

theorem mapGet_mapDelete_self {α : Type} (m : List (String × α)) (k : String) :
    mapGet (mapDelete m k).2 k = none := by
  have h : ((mapDelete m k).2).find? (fun p => decide (p.1 = k)) = none := by
    unfold mapDelete
    rw [List.find?_eq_none]
    intro p hp
    rw [List.mem_filter] at hp
    simpa using hp.2
  unfold mapGet
  rw [h]
  rfl

/-- C8 (amended): `deleteJob` cascade-deletes the job's runs in the
Redis adapter (explicit cleanup) and the SQLite adapter (the schema's
`ON DELETE CASCADE` foreign key), so their `getJobRuns` afterwards is
empty; the memory adapter removes only the job record, leaving the
job's runs in place, so its `getJobRuns` is unchanged. -/
theorem redis_getJobRuns_of_empty_list (s : RedisState) (name : String)
    (limit : Option Nat) (h : (mapGet s.runLists name).getD [] = []) :
    RedisStorageAdapter.getJobRuns s name limit = [] := by
  unfold RedisStorageAdapter.getJobRuns
  rw [h]
  rcases limit with _ | l' <;> simp

theorem deleteJob_cascade (mem : MemoryState) (sst : SqliteState) (rst : RedisState)
    (name : String) (limit : Option Nat) :
    RedisStorageAdapter.getJobRuns (RedisStorageAdapter.deleteJob rst name).2 name
      limit = [] ∧
    SQLiteStorageAdapter.getJobRuns (SQLiteStorageAdapter.deleteJob sst name).2 name
      limit = [] ∧
    MemoryStorageAdapter.getJobRuns (MemoryStorageAdapter.deleteJob mem name).2 name
      limit = MemoryStorageAdapter.getJobRuns mem name limit ∧
    mapGet (MemoryStorageAdapter.deleteJob mem name).2.jobs name = none := by
  refine ⟨?_, ?_, rfl, mapGet_mapDelete_self mem.jobs name⟩
  · refine redis_getJobRuns_of_empty_list _ name limit ?_
    simp only [RedisStorageAdapter.deleteJob]
    by_cases hids : (mapGet rst.runLists name).getD [] = []
    · rw [if_neg (show ¬ ((mapGet rst.runLists name).getD [] ≠ []) from
        fun hc => hc hids)]
      exact hids
    · rw [if_pos (show (mapGet rst.runLists name).getD [] ≠ [] from hids)]
      show (mapGet (mapDelete rst.runLists name).2 name).getD [] = []
      rw [mapGet_mapDelete_self]
      rfl
  · unfold SQLiteStorageAdapter.deleteJob SQLiteStorageAdapter.getJobRuns
    have hnil : ((sst.job_runs.filter (fun r => ¬ r.jobName = name)).filter
        (fun r => r.jobName = name)) = [] := by
      rw [List.filter_eq_nil_iff]
      intro a ha
      rw [List.mem_filter] at ha
      simpa using ha.2
    show (match limit with
      | some l' => if l' ≠ 0 then (((sst.job_runs.filter
          (fun r => ¬ r.jobName = name)).filter
          (fun r => r.jobName = name)).insertionSort
          SQLiteStorageAdapter.sqlRunDesc).take l'
        else ((sst.job_runs.filter (fun r => ¬ r.jobName = name)).filter
          (fun r => r.jobName = name)).insertionSort SQLiteStorageAdapter.sqlRunDesc
      | none => ((sst.job_runs.filter (fun r => ¬ r.jobName = name)).filter
          (fun r => r.jobName = name)).insertionSort
          SQLiteStorageAdapter.sqlRunDesc) = []
    rw [hnil]
    rcases limit with _ | l' <;> simp [List.insertionSort]

/-- The job whose deletion the C8 instances exercise. -/
def c8Job : Job :=
  { name := "j", schedule := "* * * * *", options := { name := some "j" },
    isActive := true, isPaused := false, createdAt := 0, updatedAt := 0 }

/-- A stored run of that job. -/
def c8Run : JobRun :=
  { id := "r", jobName := "j", status := RunStatus.completed, startTime := some 1,
    endTime := some 1, attempt := 1 }

/-- Memory state holding the job and its run. -/
def c8Mem : MemoryState :=
  MemoryStorageAdapter.saveJobRun (MemoryStorageAdapter.saveJob {} c8Job) c8Run

/-- C8 counterexample: the memory adapter's `deleteJob` succeeds but
leaves the job's runs behind — `getJobRuns` still returns them. -/
theorem deleteJob_no_cascade_cex :
    (MemoryStorageAdapter.deleteJob c8Mem "j").1 = true ∧
    MemoryStorageAdapter.getJobRuns (MemoryStorageAdapter.deleteJob c8Mem "j").2 "j"
      none = [c8Run] :=
  ⟨rfl, rfl⟩

/-! ## Aggregated statistics (C9) -/

/-- A completed run with both timestamps, for the C9 failing input. -/
def c9Run : JobRun :=
  { id := "r", jobName := "j", status := RunStatus.completed, startTime := some 0,
    endTime := some 100, attempt := 1 }

/-- Redis state holding that run. -/
def c9Redis : RedisState := RedisStorageAdapter.saveJobRun {} c9Run

/-- C9: the Redis adapter's `getJobStats` is a placeholder (its code
comment says "Simplified implementation for now") returning constant
zeros even though a completed run for the job is stored; the memory
adapter computes the aggregate (totalRuns = 1) on the same data. -/
theorem redis_getJobStats_stub :
    RedisStorageAdapter.getJobStats c9Redis (some "j") =
      { totalRuns := 0, successfulRuns := 0, failedRuns := 0, averageDuration := 0 } ∧
    (RedisStorageAdapter.getJobRuns c9Redis "j" none).length = 1 ∧
    (MemoryStorageAdapter.getJobStats (MemoryStorageAdapter.saveJobRun {} c9Run)
      (some "j")).totalRuns = 1 :=
  ⟨rfl, rfl, rfl⟩

/-- Witness for C7 at n = 3. -/
theorem backoff_strategy_values_witness :
    FixedBackoffStrategy.calculate {} 3 = 1000 ∧
    ExponentialBackoffStrategy.calculate {} 3 = min (1000 * 2 ^ (3 - 1)) 30000 ∧
    (∀ (job : Job) (env : JobExecutor.ExecEnv) (e : String)
        (store : List (String × JobRun)),
      job.isPaused = false → 1 ≤ job.options.retries.getD 0 →
      env.outcome 1 = Except.error e →
      (JobExecutor.executeJob job env true store).delays.head? =
        some (JobExecutor.getBackoffStrategy job.options.backoff 1)) :=
  backoff_strategy_values 3 (by norm_num)

end Cronx
